import Mathlib

/-!
# Verification of the duktape-py value-marshalling bridge

This file is a shallow embedding, in Lean 4, of the value-conversion core of
the `duktape-py` binding (`src/duktape.pyx`): the CESU-8 text transcoders, the
host-to-script encoder `to_js`, the script-to-host decoder `to_python`, the
reference table used by live-object proxies, the array-proxy accessor, the
dotted global lookup helper, and the call-trampoline error path.

Modelling conventions:

* Script ("JS") values are the inductive type `JsValue`; host ("Python")
  values are `PyValue`.  Text is represented as a list of Unicode code points
  (`List Nat`); byte strings as lists of byte values.
* IEEE doubles are modelled as `JsNum`: an exact rational together with the
  special values `nan`, `inf`, `ninf`.  The one genuinely lossy conversion in
  the pipeline, Python int -> C double (`duk_push_number`), is modelled
  exactly by round-to-nearest-even at 53-bit precision (`intToDouble`).
* Stateful stack code is modelled by explicit stack passing
  (`List JsValue`, top of stack first).
-/

namespace DuktapePy

/-! ## §1 Text transcoding (duktape.pyx lines 27-90, 262-271)

`unicode_encode_cesu8` walks the code points of a host string and emits
CESU-8 bytes; `unicode_decode_cesu8` rewrites CESU-8 surrogate pairs into
4-byte UTF-8 sequences and then decodes the result as UTF-8 (the trailing
`.decode()` of the source).  Bit operations of the source (`>>`, `&`, `|`)
are written with `/`, `%`, `+`; the operands of every `|` in the source have
disjoint bit ranges, so `+` is exact. -/

/-- One code point of `unicode_encode_cesu8` (duktape.pyx lines 71-89):
`x < 0x80` one byte, `x < 0x800` two bytes, `x < 0x10000` three bytes,
otherwise the six bytes of a CESU-8 surrogate pair. -/
def encodeCp (x : Nat) : List Nat :=
  if x < 0x80 then [x]
  else if x < 0x800 then [0xc0 + x / 64 % 32, 0x80 + x % 64]
  else if x < 0x10000 then
    [0xe0 + x / 4096 % 16, 0x80 + x / 64 % 64, 0x80 + x % 64]
  else
    let y := x - 0x10000
    [0xed, 0xa0 + y / 65536 % 16, 0x80 + y / 1024 % 64,
     0xed, 0xb0 + y / 64 % 16, 0x80 + y % 64]

/-- Source `unicode_encode_cesu8` (duktape.pyx lines 67-90): the loop
`for uchar in ustring` concatenates the per-code-point encodings. -/
def unicode_encode_cesu8 (cps : List Nat) : List Nat :=
  cps.flatMap encodeCp

/-- The loop of `unicode_decode_cesu8` (duktape.pyx lines 36-59): stop at a
NUL byte; rewrite each 6-byte CESU-8 surrogate pair
`ED [A0-AF] [80-BF] ED [B0-BF] [80-BF]` into the corresponding 4-byte UTF-8
sequence; copy every other byte unchanged. -/
def cesu8ToUtf8 (bs : List Nat) : List Nat :=
  match bs with
  | [] => []
  | b :: b1 :: b2 :: b3 :: b4 :: b5 :: rest6 =>
    if b = 0 then []
    else if b = 0xed ∧ 0xa0 ≤ b1 ∧ b1 ≤ 0xaf ∧ 0x80 ≤ b2 ∧ b2 ≤ 0xbf ∧
            b3 = 0xed ∧ 0xb0 ≤ b4 ∧ b4 ≤ 0xbf ∧ 0x80 ≤ b5 ∧ b5 ≤ 0xbf then
      (0xf0 + (b1 + 1) / 4 % 8) ::
      (0x80 + (b1 + 1) % 4 * 16 + b2 / 4 % 16) ::
      (0x80 + b2 % 4 * 16 + b4 % 16) ::
      b5 :: cesu8ToUtf8 rest6
    else b :: cesu8ToUtf8 (b1 :: b2 :: b3 :: b4 :: b5 :: rest6)
  | b :: rest =>
    -- fewer than 6 bytes remain: the pair pattern cannot match
    if b = 0 then [] else b :: cesu8ToUtf8 rest
  termination_by bs.length
  decreasing_by all_goals (simp only [List.length_cons]; omega)

/-- One step of strict UTF-8 decoding: decode the leading character of the
byte list, returning it with the remaining bytes, or `none` on malformed
input.  Overlong forms and surrogate code points are rejected, as CPython
does. -/
def utf8Step (bs : List Nat) : Option (Nat × List Nat) :=
  match bs with
  | [] => none
  | b0 :: rest =>
    if b0 < 0x80 then some (b0, rest)
    else if b0 < 0xc2 then none
    else if b0 < 0xe0 then
      match rest with
      | b1 :: rest2 =>
        if 0x80 ≤ b1 ∧ b1 ≤ 0xbf then
          some ((b0 - 0xc0) * 64 + (b1 - 0x80), rest2)
        else none
      | _ => none
    else if b0 < 0xf0 then
      match rest with
      | b1 :: b2 :: rest3 =>
        if (if b0 = 0xe0 then 0xa0 ≤ b1 ∧ b1 ≤ 0xbf
            else if b0 = 0xed then 0x80 ≤ b1 ∧ b1 ≤ 0x9f
            else 0x80 ≤ b1 ∧ b1 ≤ 0xbf) ∧ 0x80 ≤ b2 ∧ b2 ≤ 0xbf then
          some ((b0 - 0xe0) * 4096 + (b1 - 0x80) * 64 + (b2 - 0x80), rest3)
        else none
      | _ => none
    else if b0 < 0xf5 then
      match rest with
      | b1 :: b2 :: b3 :: rest4 =>
        if (if b0 = 0xf0 then 0x90 ≤ b1 ∧ b1 ≤ 0xbf
            else if b0 = 0xf4 then 0x80 ≤ b1 ∧ b1 ≤ 0x8f
            else 0x80 ≤ b1 ∧ b1 ≤ 0xbf) ∧
           0x80 ≤ b2 ∧ b2 ≤ 0xbf ∧ 0x80 ≤ b3 ∧ b3 ≤ 0xbf then
          some ((b0 - 0xf0) * 262144 + (b1 - 0x80) * 4096 +
                (b2 - 0x80) * 64 + (b3 - 0x80), rest4)
        else none
      | _ => none
    else none

theorem utf8Step_shrinks (bs : List Nat) (c : Nat) (rest : List Nat)
    (h : utf8Step bs = some (c, rest)) : rest.length < bs.length := by
  rcases bs with _ | ⟨b0, _ | ⟨b1, _ | ⟨b2, _ | ⟨b3, tl⟩⟩⟩⟩ <;>
    simp [utf8Step] at h <;> (try split_ifs at h) <;> (try simp_all) <;> omega

/-- Strict UTF-8 decoding of a byte list to code points (the final
`.decode()` of `unicode_decode_cesu8`); `none` models a raised
`UnicodeDecodeError`. -/
def utf8Decode (bs : List Nat) : Option (List Nat) :=
  match h : utf8Step bs with
  | some (c, rest) => (utf8Decode rest).map (c :: ·)
  | none => if bs.isEmpty then some [] else none
  termination_by bs.length
  decreasing_by exact utf8Step_shrinks _ _ _ h

/-- Source `unicode_decode_cesu8` (duktape.pyx lines 31-60): surrogate-pair rewrite
followed by UTF-8 decoding.  The source raises `UnicodeDecodeError` on
invalid bytes; every string reaching the decoder in the verified paths is a
valid engine string, so the error branch (`.getD []`) is never exercised. -/
def unicode_decode_cesu8 (bs : List Nat) : List Nat :=
  (utf8Decode (cesu8ToUtf8 bs)).getD []

/-- A host text code point that survives the byte-level channel: a Unicode
scalar value (no surrogates) other than U+0000 (the C layer is
NUL-terminated). -/
def GoodCp (c : Nat) : Prop :=
  0 < c ∧ c < 0x110000 ∧ ¬(0xd800 ≤ c ∧ c ≤ 0xdfff)

instance : DecidablePred GoodCp := fun c => by unfold GoodCp; infer_instance

/-- Text made of good code points. -/
def GoodText (cps : List Nat) : Prop := ∀ c ∈ cps, GoodCp c

instance : DecidablePred GoodText := fun cps => by
  unfold GoodText; infer_instance

/-- Ordinary UTF-8 encoding of one scalar value (proof-side reference
definition, used to factor the decode-of-encode argument). -/
def utf8EncodeCp (c : Nat) : List Nat :=
  if c < 0x80 then [c]
  else if c < 0x800 then [0xc0 + c / 64, 0x80 + c % 64]
  else if c < 0x10000 then
    [0xe0 + c / 4096, 0x80 + c / 64 % 64, 0x80 + c % 64]
  else
    [0xf0 + c / 262144, 0x80 + c / 4096 % 64, 0x80 + c / 64 % 64,
     0x80 + c % 64]

theorem cesu8ToUtf8_cons_plain (b : Nat) (bs : List Nat) (h0 : b ≠ 0)
    (hed : b ≠ 0xed) : cesu8ToUtf8 (b :: bs) = b :: cesu8ToUtf8 bs := by
  rcases bs with _ | ⟨b1, _ | ⟨b2, _ | ⟨b3, _ | ⟨b4, _ | ⟨b5, rest⟩⟩⟩⟩⟩ <;>
    simp [cesu8ToUtf8, h0, hed]

theorem cesu8ToUtf8_cons_ed_low (b1 : Nat) (bs : List Nat) (h0 : b1 ≠ 0)
    (hlow : b1 < 0xa0) :
    cesu8ToUtf8 (0xed :: b1 :: bs) = 0xed :: cesu8ToUtf8 (b1 :: bs) := by
  rcases bs with _ | ⟨b2, _ | ⟨b3, _ | ⟨b4, _ | ⟨b5, rest⟩⟩⟩⟩ <;>
    simp [cesu8ToUtf8, h0, hlow] <;> omega

theorem cesu8ToUtf8_pair (y : Nat) (bs : List Nat) (hy : y < 0x100000) :
    cesu8ToUtf8 (0xed :: (0xa0 + y / 65536 % 16) :: (0x80 + y / 1024 % 64) ::
        0xed :: (0xb0 + y / 64 % 16) :: (0x80 + y % 64) :: bs) =
      utf8EncodeCp (y + 0x10000) ++ cesu8ToUtf8 bs := by
  rw [cesu8ToUtf8]
  rw [if_neg (by omega), if_pos (by omega)]
  have h1 : ¬ y + 0x10000 < 0x80 := by omega
  have h2 : ¬ y + 0x10000 < 0x800 := by omega
  have h3 : ¬ y + 0x10000 < 0x10000 := by omega
  simp only [utf8EncodeCp, h1, h2, h3, if_false, List.cons_append,
    List.nil_append]
  have e0 : 0xf0 + (0xa0 + y / 65536 % 16 + 1) / 4 % 8 =
      0xf0 + (y + 0x10000) / 262144 := by omega
  have e1 : 0x80 + (0xa0 + y / 65536 % 16 + 1) % 4 * 16 +
      (0x80 + y / 1024 % 64) / 4 % 16 = 0x80 + (y + 0x10000) / 4096 % 64 := by
    omega
  have e2 : 0x80 + (0x80 + y / 1024 % 64) % 4 * 16 +
      (0xb0 + y / 64 % 16) % 16 = 0x80 + (y + 0x10000) / 64 % 64 := by omega
  have e3 : 0x80 + y % 64 = 0x80 + (y + 0x10000) % 64 := by omega
  rw [e0, e1, e2, e3]

/-- The per-code-point effect of the surrogate-pair rewrite: CESU-8 bytes of
a good code point turn into its plain UTF-8 bytes. -/
theorem cesu8ToUtf8_encodeCp (c : Nat) (bs : List Nat) (hc : GoodCp c) :
    cesu8ToUtf8 (encodeCp c ++ bs) = utf8EncodeCp c ++ cesu8ToUtf8 bs := by
  obtain ⟨hpos, hlt, hsur⟩ := hc
  by_cases h1 : c < 0x80
  · simp only [encodeCp, utf8EncodeCp, h1, if_pos, List.cons_append,
      List.nil_append]
    exact cesu8ToUtf8_cons_plain c bs (by omega) (by omega)
  · by_cases h2 : c < 0x800
    · simp only [encodeCp, utf8EncodeCp, h1, h2, if_false, if_pos,
        List.cons_append, List.nil_append]
      rw [cesu8ToUtf8_cons_plain _ _ (by omega) (by omega),
        cesu8ToUtf8_cons_plain _ _ (by omega) (by omega)]
      have : 0xc0 + c / 64 % 32 = 0xc0 + c / 64 := by omega
      rw [this]
    · by_cases h3 : c < 0x10000
      · simp only [encodeCp, utf8EncodeCp, h1, h2, h3, if_false, if_pos,
          List.cons_append, List.nil_append]
        by_cases hed : 0xe0 + c / 4096 % 16 = 0xed
        · -- lead byte 0xED: c in [0xD000, 0xD7FF]; the next byte is < 0xA0,
          -- so the surrogate-pair pattern cannot fire
          have hc1 : 0xd000 ≤ c ∧ c ≤ 0xd7ff := by omega
          have e0 : (0xed : Nat) = 0xe0 + c / 4096 := by omega
          rw [hed, cesu8ToUtf8_cons_ed_low _ _ (by omega) (by omega),
            cesu8ToUtf8_cons_plain _ _ (by omega) (by omega),
            cesu8ToUtf8_cons_plain _ _ (by omega) (by omega), e0]
        · have e0 : 0xe0 + c / 4096 % 16 = 0xe0 + c / 4096 := by omega
          rw [cesu8ToUtf8_cons_plain _ _ (by omega) hed,
            cesu8ToUtf8_cons_plain _ _ (by omega) (by omega),
            cesu8ToUtf8_cons_plain _ _ (by omega) (by omega), e0]
      · -- supplementary plane: the encoder emitted a CESU-8 pair
        have hy : c - 0x10000 < 0x100000 := by omega
        have hc' : c - 0x10000 + 0x10000 = c := by omega
        simp only [encodeCp, h1, h2, h3, if_false, List.cons_append,
          List.nil_append]
        have := cesu8ToUtf8_pair (c - 0x10000) bs hy
        rw [hc'] at this
        exact this

/-- Fact: `utf8Step` inverts `utf8EncodeCp` on good code points. -/
theorem utf8Step_encodeCp (c : Nat) (bs : List Nat) (hc : GoodCp c) :
    utf8Step (utf8EncodeCp c ++ bs) = some (c, bs) := by
  obtain ⟨hpos, hlt, hsur⟩ := hc
  by_cases h1 : c < 0x80
  · simp only [utf8EncodeCp, h1, if_pos, List.cons_append, List.nil_append,
      utf8Step]
  · by_cases h2 : c < 0x800
    · simp only [utf8EncodeCp, h1, h2, if_false, if_pos, List.cons_append,
        List.nil_append, utf8Step]
      rw [if_neg (by omega), if_neg (by omega), if_pos (by omega),
        if_pos (by omega)]
      have : (0xc0 + c / 64 - 0xc0) * 64 + (0x80 + c % 64 - 0x80) = c := by
        omega
      rw [this]
    · by_cases h3 : c < 0x10000
      · simp only [utf8EncodeCp, h1, h2, h3, if_false, if_pos,
          List.cons_append, List.nil_append, utf8Step]
        rw [if_neg (by omega), if_neg (by omega), if_neg (by omega),
          if_pos (by omega)]
        rw [if_pos ?cond]
        case cond =>
          refine ⟨?_, by omega, by omega⟩
          by_cases he0 : 0xe0 + c / 4096 = 0xe0
          · rw [if_pos he0]; omega
          · rw [if_neg he0]
            by_cases hed : 0xe0 + c / 4096 = 0xed
            · rw [if_pos hed]; omega
            · rw [if_neg hed]; omega
        have : (0xe0 + c / 4096 - 0xe0) * 4096 + (0x80 + c / 64 % 64 - 0x80)
            * 64 + (0x80 + c % 64 - 0x80) = c := by omega
        rw [this]
      · simp only [utf8EncodeCp, h1, h2, h3, if_false, List.cons_append,
          List.nil_append, utf8Step]
        rw [if_neg (by omega), if_neg (by omega), if_neg (by omega),
          if_neg (by omega), if_pos (by omega)]
        rw [if_pos ?cond]
        case cond =>
          refine ⟨?_, by omega, by omega, by omega⟩
          by_cases hf0 : 0xf0 + c / 262144 = 0xf0
          · rw [if_pos hf0]; omega
          · rw [if_neg hf0]
            by_cases hf4 : 0xf0 + c / 262144 = 0xf4
            · rw [if_pos hf4]; omega
            · rw [if_neg hf4]; omega
        have : (0xf0 + c / 262144 - 0xf0) * 262144 +
            (0x80 + c / 4096 % 64 - 0x80) * 4096 +
            (0x80 + c / 64 % 64 - 0x80) * 64 + (0x80 + c % 64 - 0x80) = c := by
          omega
        rw [this]

theorem utf8Decode_nil : utf8Decode [] = some [] := by
  rw [utf8Decode.eq_def]
  simp [utf8Step]

/-- Fact: `utf8EncodeCp` never produces the empty byte list. -/
theorem utf8EncodeCp_ne_nil (c : Nat) : utf8EncodeCp c ≠ [] := by
  unfold utf8EncodeCp
  split_ifs <;> simp

/-- Fact: `utf8Decode` inverts `utf8EncodeCp` on good code points. -/
theorem utf8Decode_encodeCp (c : Nat) (bs : List Nat) (hc : GoodCp c) :
    utf8Decode (utf8EncodeCp c ++ bs) = (utf8Decode bs).map (c :: ·) := by
  rw [utf8Decode.eq_def, utf8Step_encodeCp c bs hc]

/-- Text round trip: CESU-8 encoding then decoding is the identity on good
host text. -/
theorem text_roundtrip (cps : List Nat) (h : GoodText cps) :
    unicode_decode_cesu8 (unicode_encode_cesu8 cps) = cps := by
  unfold unicode_decode_cesu8
  have key : ∀ l, GoodText l →
      utf8Decode (cesu8ToUtf8 (unicode_encode_cesu8 l)) = some l := by
    intro l
    induction l with
    | nil => intro _; simp [unicode_encode_cesu8, cesu8ToUtf8, utf8Decode_nil]
    | cons c rest ih =>
      intro hl
      have hc : GoodCp c := hl c (by simp)
      have hrest : GoodText rest := fun x hx => hl x (by simp [hx])
      show utf8Decode (cesu8ToUtf8 (encodeCp c ++ unicode_encode_cesu8 rest))
        = some (c :: rest)
      rw [cesu8ToUtf8_encodeCp c _ hc, utf8Decode_encodeCp c _ hc, ih hrest]
      rfl
  rw [key cps h]
  rfl

/-! ## §2 The value model

`JsValue` models one duktape stack value, `PyValue` one host value.  Script
objects that the binding treats specially (`Date` objects built by
`to_js_date`, `PythonError` instances, generic `Error` instances, C-function
wrappers) are separate constructors carrying exactly the state the binding
reads back: the hidden `epoch_usec`/`dt_type` symbols, the hidden
`python_error` pointer, the `exc_name`/`args` properties.  A JS number is a
`JsNum`: an exact rational or one of the IEEE specials. -/

inductive JsNum where
  | finite (q : ℚ)
  | nan
  | inf
  | ninf
deriving DecidableEq, Repr

/-- Prototype classification used by `duk_is_plain_object` (duktape.pyx
lines 342-357): no prototype at all, exactly `Object.prototype`, or some
other (non-default) prototype object. -/
inductive Proto where
  | noProto
  | objectProto
  | custom (n : Nat)
deriving DecidableEq, Repr

/-- The three host-side proxy capabilities (`JsFunc`, `JsArray`, `JsDict`;
duktape.pyx lines 295-309). -/
inductive ProxyKind where
  | func
  | array
  | dict
deriving DecidableEq, Repr

mutual
inductive JsValue where
  | undefined
  | null
  | boolean (b : Bool)
  | number (x : JsNum)
  /-- a JS string: CESU-8 bytes as stored by the engine -/
  | str (bytes : List Nat)
  | array (elems : List JsValue)
  /-- an ordinary object: its prototype class and its own enumerable
  properties in insertion order -/
  | object (proto : Proto) (props : List (List Nat × JsValue))
  /-- the value pushed by `to_js_date` (duktape.pyx lines 811-842) or a
  script-created `Date`: the hidden `epoch_usec` stash (absent for
  script-created dates), the hidden `dt_type` tag, and the engine-held
  millisecond timestamp -/
  | jsDate (usec : Option Int) (dtType : Option (List Nat)) (ms : ℚ)
  /-- a `PythonError` instance (constructed by `python_error_constructor`,
  duktape.pyx lines 983-1003): hidden `exc_name`, `message`, `args`
  properties, plus the hidden `python_error` pointer optionally stashed by
  `duk_throw_python_error` -/
  | pythonError (excName : List Nat) (message : JsValue) (args : JsValue)
      (pyerr : Option PyValue)
  /-- a generic script `Error` instance with its `message`, plus the hidden
  `python_error` pointer optionally stashed by `duk_throw_python_error` -/
  | errObj (message : List Nat) (pyerr : Option PyValue)
  /-- a duktape C function object (host-function wrapper or built-in
  constructor), identified by an opaque id -/
  | cfunc (fid : Nat)
  /-- an ordinary script function, identified by its heap pointer -/
  | jsFunc (ptr : Nat)
  /-- a plain duktape buffer value (type tag distinct from object) -/
  | buffer
  /-- a duktape pointer value (type tag distinct from object) -/
  | pointer

inductive PyValue where
  | none
  | bool (b : Bool)
  | int (n : Int)
  | float (x : JsNum)
  /-- host text as Unicode code points -/
  | str (cps : List Nat)
  | list (xs : List PyValue)
  | tuple (xs : List PyValue)
  /-- a host dict with string keys (the shape `to_js_dict` handles) -/
  | dict (kvs : List (List Nat × PyValue))
  /-- naive `datetime.datetime` as microseconds since the epoch -/
  | pydatetime (usec : Int)
  /-- Source `datetime.date` as days since the epoch -/
  | pydate (days : Int)
  /-- Source `datetime.time` as microseconds since midnight -/
  | pytime (usec : Int)
  /-- a host exception: qualified type name and positional args -/
  | exc (name : List Nat) (args : List PyValue)
  /-- a `duktape.Error` instance carrying a message/stack trace text -/
  | hostError (message : List Nat)
  /-- a host-side proxy handle (`JsFunc`/`JsArray`/`JsDict`) -/
  | proxy (kind : ProxyKind) (ref : Nat)
  /-- a host value of a type `to_js` has no branch for; carries the class
  name used in the `TypeError` message -/
  | unsupported (typeName : List Nat)
end

/-! ### Python int -> C double (`duk_push_number` on an `int`)

Converting a Python `int` to `duk_double_t` rounds to nearest-even at 53-bit
precision.  `intToDouble` implements that rounding exactly.  (CPython raises
`OverflowError` for magnitudes at or beyond `2^1024`; we model that edge as
saturation to the infinities; no verified claim exercises that range.) -/

def roundToDoubleInt (n : Int) : Int :=
  let m := n.natAbs
  if m ≤ 2 ^ 53 then n
  else
    let bits := Nat.log 2 m + 1
    let k := bits - 53
    let grid : Int := 2 ^ k
    let q := (m : Int) / grid
    let r := (m : Int) % grid
    let half := grid / 2
    let q2 := if half < r then q + 1
      else if r < half then q
      else if q % 2 = 0 then q else q + 1
    n.sign * (q2 * grid)

def intToDouble (n : Int) : JsNum :=
  let v := roundToDoubleInt n
  if 2 ^ 1024 ≤ v.natAbs then (if n < 0 then JsNum.ninf else JsNum.inf)
  else JsNum.finite (v : ℚ)

theorem intToDouble_exact (n : Int) (h : n.natAbs ≤ 2 ^ 53) :
    intToDouble n = JsNum.finite (n : ℚ) := by
  unfold intToDouble roundToDoubleInt
  simp only [if_pos h]
  rw [if_neg (by omega)]

/-! ### Python `==` on host values (`pyEq`)

Python equality as it matters here: `None == None`; numbers (`bool`,
`int`, `float`) compare by numeric value with `nan` unequal to everything;
strings, lists, tuples and datetime values compare structurally; dicts
compare as unordered key-value maps (`len` equal and every key of the first
maps to an `==` value in the second — CPython's `dict_equal`).  Exceptions,
proxies and other objects without `__eq__` compare by identity; two
distinct such objects are unequal, which is the only case the theorems
exercise. -/

def lookupKV (d : List (List Nat × PyValue)) (k : List Nat) :
    Option PyValue :=
  match d with
  | [] => Option.none
  | (k2, v) :: rest => if k2 = k then some v else lookupKV rest k

theorem lookupKV_sizeOf (d : List (List Nat × PyValue)) (k : List Nat)
    (v : PyValue) (h : lookupKV d k = some v) : sizeOf v < sizeOf d := by
  induction d with
  | nil => simp [lookupKV] at h
  | cons kv rest ih =>
    obtain ⟨k2, v2⟩ := kv
    by_cases he : k2 = k
    · simp [lookupKV, he] at h
      subst h
      simp
      omega
    · simp [lookupKV, he] at h
      have := ih h
      simp
      omega

/-- Value of a host number (`bool` counts as `0`/`1`, as in Python). -/
def toNum (v : PyValue) : Option JsNum :=
  match v with
  | .bool b => some (.finite (if b then 1 else 0))
  | .int n => some (.finite (n : ℚ))
  | .float x => some x
  | _ => Option.none

/-- IEEE-style equality on script numbers: `nan` is unequal to everything,
including itself. -/
def jsNumEq (x y : JsNum) : Bool :=
  match x, y with
  | .finite a, .finite b => a = b
  | .inf, .inf => true
  | .ninf, .ninf => true
  | _, _ => false

mutual
def pyEq (a : PyValue) (b : PyValue) : Bool :=
  match toNum a, toNum b with
  | some x, some y => jsNumEq x y
  | _, _ =>
    match a, b with
    | .none, .none => true
    | .str a2, .str b2 => a2 = b2
    | .list a2, .list b2 => pyEqList a2 b2
    | .tuple a2, .tuple b2 => pyEqList a2 b2
    | .dict a2, .dict b2 => a2.length = b2.length && pyEqDict a2 b2
    | .pydatetime a2, .pydatetime b2 => a2 = b2
    | .pydate a2, .pydate b2 => a2 = b2
    | .pytime a2, .pytime b2 => a2 = b2
    | _, _ => false

def pyEqList : List PyValue → List PyValue → Bool
  | [], [] => true
  | x :: xs, y :: ys => pyEq x y && pyEqList xs ys
  | _, _ => false

def pyEqDict : List (List Nat × PyValue) → List (List Nat × PyValue) → Bool
  | [], _ => true
  | (k, v) :: rest, d2 =>
    (match h : lookupKV d2 k with
     | some v2 => pyEq v v2
     | Option.none => false) && pyEqDict rest d2
end

/-! ## §3 The decoder `to_python` (duktape.pyx lines 634-707) -/

/-- The decode configuration: the optional `to_py_hook` of the `Context`.
The hook is modelled as a function from the flattened mapping to an optional
substitute; `none` models the hook raising `TypeError` (which `to_python`
swallows, duktape.pyx lines 690-694).  The `refMap` component is the
global-stash `_ref_map` table, used by `to_js` to resolve proxy arguments
(duktape.pyx lines 929-931); the encode-side `to_js_hook` and the host
callable branches are outside the modelled host-value universe. -/
structure PyCtx where
  toPyHook : Option (PyValue → Option PyValue)
  refMap : Nat → Option JsValue

/-- A hook-free context with an empty reference map. -/
def ctx0 : PyCtx := ⟨Option.none, fun _ => Option.none⟩

/-- Code points of the string `"unknown"` (duktape.pyx line 706). -/
def unknownText : List Nat := [117, 110, 107, 110, 111, 119, 110]

/-- Code points of `"datetime"`, `"date"`, `"time"` (the `dt_type` tags). -/
def dtDatetime : List Nat := [100, 97, 116, 101, 116, 105, 109, 101]

def dtDate : List Nat := [100, 97, 116, 101]

def dtTime : List Nat := [116, 105, 109, 101]

def USECS_IN_SEC : Int := 1000000

def USECS_IN_DAY : Int := 86400000000

/-- Truncation toward zero, as C `modf` computes the integral part of a
double (and as the engine `Date` constructor clips its numeric argument). -/
def ratTrunc (q : ℚ) : Int := if q < 0 then ⌈q⌉ else ⌊q⌋

/-- Round to nearest integer, ties to even: the IEEE-754 default rounding,
and CPython's `_PyTime_RoundHalfEven`. -/
def roundHalfEven (q : ℚ) : Int :=
  if q - ⌊q⌋ < 1/2 then ⌊q⌋
  else if 1/2 < q - ⌊q⌋ then ⌊q⌋ + 1
  else if ⌊q⌋ % 2 = 0 then ⌊q⌋ else ⌊q⌋ + 1

/-- The exact rational value of the IEEE-754 double nearest to `q` (ties to
even).  A normal finite double is `m * 2 ^ (e - 52)` with `2^52 ≤ |m| <
2^53`; every value the date codec feeds through this map lies far inside
the normal finite range (no overflow, no subnormals), so those edges are
not modelled. -/
def ratToDouble (q : ℚ) : ℚ :=
  if q = 0 then 0
  else if q < 0 then
    -((roundHalfEven (-q / 2 ^ (Int.log 2 (-q) - 52)) : ℚ) *
      2 ^ (Int.log 2 (-q) - 52))
  else (roundHalfEven (q / 2 ^ (Int.log 2 q - 52)) : ℚ) *
    2 ^ (Int.log 2 q - 52)

/-- Source `datetime.datetime.utcfromtimestamp` restricted to what the
binding observes: the epoch microsecond count of the result.  CPython
(`pytime_double_to_denominator`) splits the double with `modf`, multiplies
the fractional part by `1e6` (one more double rounding), rounds that
half-even to an integer microsecond count, and normalises it into
`[0, 1000000)` carrying into the integral seconds; the result is the civil
datetime of the integral seconds plus that count. -/
def utcfromtimestampUsec (s : ℚ) : Int :=
  let ip : Int := ratTrunc s
  let fp : ℚ := s - ip
  let us : Int := roundHalfEven (ratToDouble (fp * 1000000))
  if 1000000 ≤ us then (ip + 1) * 1000000 + (us - 1000000)
  else if us < 0 then (ip - 1) * 1000000 + (us + 1000000)
  else ip * 1000000 + us

/-- The `Date` classification branch of `to_python` (duktape.pyx lines
666-689): prefer the hidden `epoch_usec` stash, where
`struct.unpack('q', ...)[0] / 1e6` is a Python float division: the int64
is first converted to the nearest double and the quotient is rounded to a
double again; else fall back to `getTime()` milliseconds divided by `1e3`;
then split on the hidden `dt_type` tag. -/
def decodeDate (usec? : Option Int) (dtType? : Option (List Nat)) (ms : ℚ) :
    PyValue :=
  let epochS : ℚ :=
    match usec? with
    | some u => ratToDouble (ratToDouble (u : ℚ) / 1000000)
    | Option.none => ratToDouble (ms / 1000)
  let dtType := dtType?.getD dtDatetime
  let du := utcfromtimestampUsec epochS
  if dtType = dtDate then .pydate (Int.fdiv du USECS_IN_DAY)
  else if dtType = dtTime then .pytime (Int.emod du USECS_IN_DAY)
  else .pydatetime du

/-- Result of the optional `to_py_hook` offer (duktape.pyx lines 690-694):
the hook's substitute if present and not raising `TypeError`, else the
fallthrough value. -/
def hookOr (ctx : PyCtx) (dct fallback : PyValue) : PyValue :=
  match ctx.toPyHook with
  | some hook =>
    match hook dct with
    | some r => r
    | Option.none => fallback
  | Option.none => fallback

mutual
/-- Source `to_python` (duktape.pyx lines 634-707).  Dispatch order of the source:
boolean; NaN; null/undefined; number (int if integral); string; array;
object classification (plain -> dict, `PythonError` -> rebuilt host
exception, `Date` -> datetime, hook, `Error` -> `duktape.Error`, function ->
proxy, else flattened dict); anything else -> the host string `'unknown'`.
Objects the binding treats specially are separate `JsValue` constructors,
so the classification appears here arm by arm; the stack shuffling of the
source is balanced in every branch and the model is value-level.
`importlib` reconstruction of a `PythonError` is modelled as succeeding and
yielding an exception of the carried qualified name with the decoded args. -/
def to_python (ctx : PyCtx) (v : JsValue) : PyValue :=
  match v with
  | .boolean b => .bool b
  | .number .nan => .float .nan
  | .null => .none
  | .undefined => .none
  | .number (.finite q) => if q.den = 1 then .int q.num else .float (.finite q)
  | .number .inf => .float .inf
  | .number .ninf => .float .ninf
  | .str bs => .str (unicode_decode_cesu8 bs)
  | .array elems => .list (toPyList ctx elems)
  | .jsDate usec? dtType? ms => decodeDate usec? dtType? ms
  | .pythonError excName _ args _ =>
    .exc (unicode_decode_cesu8 excName) (toPyArgs ctx args)
  | .errObj message _ =>
    -- generic Error: own enumerable properties are empty, so the hook is
    -- offered the empty mapping before the instanceof("Error") branch
    hookOr ctx (.dict []) (.hostError (unicode_decode_cesu8 message))
  | .object proto props =>
    let dct := PyValue.dict (toPyProps ctx props)
    if proto = .noProto ∨ proto = .objectProto then dct
    else hookOr ctx dct dct
  | .cfunc fid => hookOr ctx (.dict []) (.proxy .func fid)
  | .jsFunc ptr => hookOr ctx (.dict []) (.proxy .func ptr)
  | .buffer => .str unknownText
  | .pointer => .str unknownText

/-- Source `to_python_list` (duktape.pyx lines 274-281): decode each element. -/
def toPyList (ctx : PyCtx) (elems : List JsValue) : List PyValue :=
  match elems with
  | [] => []
  | e :: rest => to_python ctx e :: toPyList ctx rest

/-- Source `to_python_dict` (duktape.pyx lines 284-292): enumerate own properties,
decoding each key (a string) and value. -/
def toPyProps (ctx : PyCtx) (props : List (List Nat × JsValue)) :
    List (List Nat × PyValue) :=
  match props with
  | [] => []
  | (k, w) :: rest =>
    (unicode_decode_cesu8 k, to_python ctx w) :: toPyProps ctx rest

/-- The `args` read-back of the `PythonError` branch (duktape.pyx lines
658-660): `to_python_list` of the `args` property, which is an array in
every path that stores it. -/
def toPyArgs (ctx : PyCtx) (args : JsValue) : List PyValue :=
  match args with
  | .array es => toPyList ctx es
  | _ => []
end

/-! ## §4 The encoder `to_js` (duktape.pyx lines 891-948)

Modelled with explicit stack passing: `to_js` receives the current duktape
value stack (top first) and returns the stack after the call together with
an optional raised error.  A raised error leaves the stack exactly as it was
at the raise point — nothing unwinds it, as in the source. -/

/-- The `TypeError` raised by `to_js` on an unsupported value (duktape.pyx
line 948), carrying the host type name interpolated into the message. -/
inductive ConvErr where
  | typeError (typeName : List Nat)
deriving DecidableEq, Repr

/-- Source `duk_push_string`/`duk_put_prop_string` receive a NUL-terminated
`char*`: bytes from the first NUL onward are lost.  `pushedStr` is the byte
string the engine actually stores for a host string. -/
def pushedStr (cps : List Nat) : List Nat :=
  (unicode_encode_cesu8 cps).takeWhile (· ≠ 0)

/-- Source `duk_put_prop_index(ctx, -2, i)` on a stack whose top two values are the
element and the array under construction: pop the element and set index `i`
(append for `i` = length, pad with undefined beyond — `to_js_array` only
ever appends).  Shapes that cannot occur in the encoder's use leave the
target unchanged apart from the pop. -/
def dukPutPropIndex (st : List JsValue) (i : Nat) : List JsValue :=
  match st with
  | w :: .array acc :: rest =>
    .array (if i < acc.length then acc.set i w
            else acc ++ List.replicate (i - acc.length) .undefined ++ [w])
      :: rest
  | _ :: t :: rest => t :: rest
  | st => st

/-- JS property write: overwrite in place if the key exists, else append
(insertion order preserved). -/
def setProp (props : List (List Nat × JsValue)) (k : List Nat)
    (w : JsValue) : List (List Nat × JsValue) :=
  match props with
  | [] => [(k, w)]
  | (k2, v) :: rest =>
    if k2 = k then (k2, w) :: rest else (k2, v) :: setProp rest k w

/-- Source `duk_put_prop_string(ctx, -2, key)` on a stack whose top two values are
the value and an object: pop the value and assign the property. -/
def dukPutPropString (st : List JsValue) (k : List Nat) : List JsValue :=
  match st with
  | w :: .object proto props :: rest =>
    .object proto (setProp props k w) :: rest
  | _ :: t :: rest => t :: rest
  | st => st

/-- Code points of `"duktape.Error"`, the qualified name `to_js` computes
for a `duktape.Error` exception value. -/
def dukErrorName : List Nat :=
  [100, 117, 107, 116, 97, 112, 101, 46, 69, 114, 114, 111, 114]

/-- Source `to_js_date` (duktape.pyx lines 803-842).  `to_epoch_usec` of the three
host date/time shapes; the public `Date` holds the millisecond timestamp
`epoch_usec/1e3` (truncated to an integer by the `Date` constructor's time
clip; a host datetime's range keeps it far inside the clip bound), and the
hidden `epoch_usec`/`dt_type` symbols hold the exact microsecond count and
the shape tag.  The proxy wrapper installed around the date (lines 835-842)
only intercepts `set*` calls and is transparent to everything the decoder
reads; the model keeps the date as one value. -/
def to_js_date (v : PyValue) : JsValue :=
  match v with
  | .pydatetime u =>
    .jsDate (some u) (some dtDatetime) ((ratTrunc ((u : ℚ) / 1000) : ℚ))
  | .pydate d =>
    let u := d * USECS_IN_DAY
    .jsDate (some u) (some dtDate) ((ratTrunc ((u : ℚ) / 1000) : ℚ))
  | .pytime t =>
    .jsDate (some t) (some dtTime) ((ratTrunc ((t : ℚ) / 1000) : ℚ))
  | _ => .undefined

mutual
/-- Source `to_js` (duktape.pyx lines 891-948), with the source's dispatch order:
`None`; `str`; `bool`; `int`/`float`; `list`/`tuple`; `dict`;
`datetime`/`date`/`time`; already-a-proxy (push the live value from the
reference map); `BaseException` (encode as a `PythonError` instance via
`JsNew`, duktape.pyx lines 939-946); otherwise raise `TypeError` naming the
host type.  The `JsType`/`PyFunc`/callable branches and the optional
`to_js_hook` lie outside the modelled host universe (no claim touches
them). -/
def to_js (ctx : PyCtx) (v : PyValue) (st : List JsValue) :
    List JsValue × Option ConvErr :=
  match v with
  | .none => (.null :: st, Option.none)
  | .str cps => (.str (pushedStr cps) :: st, Option.none)
  | .bool b => (.boolean b :: st, Option.none)
  | .int n => (.number (intToDouble n) :: st, Option.none)
  | .float x => (.number x :: st, Option.none)
  | .list xs => to_js_seq ctx xs 0 (.array [] :: st)
  | .tuple xs => to_js_seq ctx xs 0 (.array [] :: st)
  | .dict kvs => to_js_map ctx kvs (.object .objectProto [] :: st)
  | .pydatetime u => (to_js_date (.pydatetime u) :: st, Option.none)
  | .pydate d => (to_js_date (.pydate d) :: st, Option.none)
  | .pytime t => (to_js_date (.pytime t) :: st, Option.none)
  | .proxy _ r => (((ctx.refMap r).getD .undefined) :: st, Option.none)
  | .exc name args =>
    -- JsNew("PythonError", exc_name, str(value), value.args): push the
    -- constructor, encode the three arguments, duk_pnew(3) pops all four
    -- and pushes the instance built by python_error_constructor
    let st1 := JsValue.cfunc 0 :: st
    let st2 := JsValue.str (pushedStr name) :: st1
    let st3 := JsValue.str [] :: st2  -- str(value): opaque, never read back
    match to_js_seq ctx args 0 (.array [] :: st3) with
    | (st4, some e) => (st4, some e)
    | (st4, Option.none) =>
      match st4 with
      | argsArr :: _ :: _ :: _ :: rest4 =>
        (.pythonError (pushedStr name) (.str []) argsArr Option.none ::
          rest4, Option.none)
      | _ => (st4, Option.none)  -- unreachable: the loop preserves st3
  | .hostError msg =>
    -- a duktape.Error value is a BaseException: same JsNew path with
    -- exc_name "duktape.Error" and args (msg,); the single string argument
    -- always encodes, so the construction is written directly
    (.pythonError (pushedStr dukErrorName) (.str [])
      (.array [.str (pushedStr msg)]) Option.none :: st, Option.none)
  | .unsupported tname => (st, some (.typeError tname))

/-- Source `to_js_array` body (duktape.pyx lines 780-786): after `duk_push_array`,
encode each element and `duk_put_prop_index` it at its position.  An error
in a nested `to_js` propagates immediately, leaving the stack as it was. -/
def to_js_seq (ctx : PyCtx) (xs : List PyValue) (i : Nat)
    (st : List JsValue) : List JsValue × Option ConvErr :=
  match xs with
  | [] => (st, Option.none)
  | x :: rest =>
    match to_js ctx x st with
    | (st2, some e) => (st2, some e)
    | (st2, Option.none) => to_js_seq ctx rest (i + 1) (dukPutPropIndex st2 i)

/-- Source `to_js_dict` body (duktape.pyx lines 789-795): after `duk_push_object`,
encode each value and `duk_put_prop_string` it under its CESU-8 key. -/
def to_js_map (ctx : PyCtx) (kvs : List (List Nat × PyValue))
    (st : List JsValue) : List JsValue × Option ConvErr :=
  match kvs with
  | [] => (st, Option.none)
  | (k, v) :: rest =>
    match to_js ctx v st with
    | (st2, some e) => (st2, some e)
    | (st2, Option.none) => to_js_map ctx rest (dukPutPropString st2 (pushedStr k))
end

/-! ## §5 Round-trip infrastructure (claim C1) -/

/-- The host values of the claim's primitive-and-container universe for
which the round trip can hold: `None`, booleans, ints exactly representable
in the script's double, floats other than NaN, good text, and lists/dicts
of such values (dict keys good text, pairwise distinct — a Python dict
guarantees key uniqueness). -/
inductive RTValue : PyValue → Prop
  | none : RTValue .none
  | bool (b : Bool) : RTValue (.bool b)
  | int (n : Int) : n.natAbs ≤ 2 ^ 53 → RTValue (.int n)
  | finite (q : ℚ) : RTValue (.float (.finite q))
  | inf : RTValue (.float .inf)
  | ninf : RTValue (.float .ninf)
  | str (cps : List Nat) : GoodText cps → RTValue (.str cps)
  | list (xs : List PyValue) : (∀ x ∈ xs, RTValue x) → RTValue (.list xs)
  | dict (kvs : List (List Nat × PyValue)) :
      (∀ kv ∈ kvs, GoodText kv.1) → (∀ kv ∈ kvs, RTValue kv.2) →
      (kvs.map Prod.fst).Nodup → RTValue (.dict kvs)

theorem takeWhile_ne_zero (l : List Nat) (h : ∀ b ∈ l, b ≠ 0) :
    l.takeWhile (· ≠ 0) = l := by
  induction l with
  | nil => rfl
  | cons b bs ih =>
    have hb : b ≠ 0 := h b (by simp)
    rw [List.takeWhile_cons, if_pos (by simp [hb]),
      ih fun x hx => h x (by simp [hx])]

theorem encodeCp_ne_zero (c : Nat) (hc : GoodCp c) :
    ∀ b ∈ encodeCp c, b ≠ 0 := by
  obtain ⟨hpos, _, _⟩ := hc
  intro b hb
  unfold encodeCp at hb
  split_ifs at hb <;> simp at hb <;> omega

theorem cesu8_ne_zero (cps : List Nat) (h : GoodText cps) :
    ∀ b ∈ unicode_encode_cesu8 cps, b ≠ 0 := by
  intro b hb
  unfold unicode_encode_cesu8 at hb
  rw [List.mem_flatMap] at hb
  obtain ⟨c, hc, hbc⟩ := hb
  exact encodeCp_ne_zero c (h c hc) b hbc

/-- On good text nothing is lost at the NUL-terminated boundary. -/
theorem pushedStr_good (cps : List Nat) (h : GoodText cps) :
    pushedStr cps = unicode_encode_cesu8 cps :=
  takeWhile_ne_zero _ (cesu8_ne_zero cps h)

/-- Good text round trips through the pushed byte form. -/
theorem pushedStr_roundtrip (cps : List Nat) (h : GoodText cps) :
    unicode_decode_cesu8 (pushedStr cps) = cps := by
  rw [pushedStr_good cps h]
  exact text_roundtrip cps h

theorem toPyList_eq_map (ctx : PyCtx) (l : List JsValue) :
    toPyList ctx l = l.map (to_python ctx) := by
  induction l with
  | nil => simp [toPyList]
  | cons e rest ih => simp [toPyList, ih]

theorem setProp_fresh (props : List (List Nat × JsValue)) (k : List Nat)
    (w : JsValue) (h : k ∉ props.map Prod.fst) :
    setProp props k w = props ++ [(k, w)] := by
  induction props with
  | nil => rfl
  | cons kv rest ih =>
    obtain ⟨k2, v2⟩ := kv
    simp only [List.map_cons, List.mem_cons] at h
    push_neg at h
    rw [setProp, if_neg (fun he => h.1 he.symm), ih h.2]
    simp

/-- Encoding a list whose elements each encode to a fixed pushed value:
`to_js_seq` appends them to the array under construction, in order. -/
theorem to_js_seq_ok (ctx : PyCtx) (xs : List PyValue)
    (h : ∀ x ∈ xs, ∃ w, (∀ st, to_js ctx x st = (w :: st, Option.none)) ∧
      pyEq (to_python ctx w) x = true) :
    ∃ ws : List JsValue,
      (∀ acc st, to_js_seq ctx xs acc.length (.array acc :: st) =
        (.array (acc ++ ws) :: st, Option.none)) ∧
      pyEqList (toPyList ctx ws) xs = true := by
  induction xs with
  | nil =>
    exact ⟨[], fun acc st => by simp [to_js_seq], by simp [toPyList, pyEqList]⟩
  | cons x rest ih =>
    obtain ⟨w, hw, hweq⟩ := h x (by simp)
    obtain ⟨ws, hws, hwseq⟩ := ih fun y hy => h y (by simp [hy])
    refine ⟨w :: ws, fun acc st => ?_, ?_⟩
    · have hput : dukPutPropIndex (w :: .array acc :: st) acc.length =
          .array (acc ++ [w]) :: st := by
        simp [dukPutPropIndex]
      have hlen : acc.length + 1 = (acc ++ [w]).length := by simp
      simp only [to_js_seq, hw]
      rw [hput, hlen, hws (acc ++ [w]) st]
      simp
    · simp [toPyList, pyEqList, hweq, hwseq]

/-- Encoding a dict whose values each encode to fixed pushed values and
whose pushed keys are fresh and pairwise distinct: `to_js_map` appends the
properties in insertion order. -/
theorem to_js_map_ok (ctx : PyCtx) (kvs : List (List Nat × PyValue))
    (h : ∀ kv ∈ kvs, ∃ w, (∀ st, to_js ctx kv.2 st = (w :: st, Option.none)) ∧
      pyEq (to_python ctx w) kv.2 = true)
    (hnodup : (kvs.map fun kv => pushedStr kv.1).Nodup) :
    ∃ ws : List (List Nat × JsValue),
      List.Forall₂ (fun (p : List Nat × JsValue) (kv : List Nat × PyValue) =>
        p.1 = pushedStr kv.1 ∧ pyEq (to_python ctx p.2) kv.2 = true) ws kvs ∧
      ∀ accProps st,
        (∀ kv ∈ kvs, pushedStr kv.1 ∉ accProps.map Prod.fst) →
        to_js_map ctx kvs (.object .objectProto accProps :: st) =
          (.object .objectProto (accProps ++ ws) :: st, Option.none) := by
  induction kvs with
  | nil => exact ⟨[], List.Forall₂.nil, fun accProps st _ => by simp [to_js_map]⟩
  | cons kv rest ih =>
    obtain ⟨k, v⟩ := kv
    obtain ⟨w, hw, hweq⟩ := h (k, v) (by simp)
    simp only [List.map_cons, List.nodup_cons] at hnodup
    obtain ⟨ws, hrel, hrun⟩ :=
      ih (fun y hy => h y (by simp [hy])) hnodup.2
    refine ⟨(pushedStr k, w) :: ws, List.Forall₂.cons ⟨rfl, hweq⟩ hrel,
      fun accProps st hfresh => ?_⟩
    have hput : dukPutPropString (w :: .object .objectProto accProps :: st)
        (pushedStr k) = .object .objectProto (accProps ++ [(pushedStr k, w)])
          :: st := by
      simp only [dukPutPropString]
      rw [setProp_fresh _ _ _ (hfresh (k, v) (by simp))]
    simp only [to_js_map, hw]
    rw [hput, hrun (accProps ++ [(pushedStr k, w)]) st ?fresh]
    · simp
    case fresh =>
      intro kv2 hkv2
      simp only [List.map_append, List.map_cons, List.map_nil,
        List.mem_append, List.mem_singleton, not_or]
      refine ⟨hfresh kv2 (by simp [hkv2]), ?_⟩
      intro hbad
      exact hnodup.1 (hbad ▸ List.mem_map_of_mem (fun y => pushedStr y.1) hkv2)

theorem toPyProps_length (ctx : PyCtx) (props : List (List Nat × JsValue)) :
    (toPyProps ctx props).length = props.length := by
  induction props with
  | nil => simp [toPyProps]
  | cons kv rest ih =>
    obtain ⟨k, w⟩ := kv
    simp [toPyProps, ih]

/-- Decoding the encoded properties recovers the original keys (good text)
with `==`-equal values. -/
theorem toPyProps_rel (ctx : PyCtx) (ws : List (List Nat × JsValue))
    (kvs : List (List Nat × PyValue))
    (hrel : List.Forall₂ (fun (p : List Nat × JsValue)
      (kv : List Nat × PyValue) =>
      p.1 = pushedStr kv.1 ∧ pyEq (to_python ctx p.2) kv.2 = true) ws kvs)
    (hkeys : ∀ kv ∈ kvs, GoodText kv.1) :
    List.Forall₂ (fun (a b : List Nat × PyValue) =>
      a.1 = b.1 ∧ pyEq a.2 b.2 = true) (toPyProps ctx ws) kvs := by
  induction hrel with
  | nil => simp [toPyProps]
  | @cons p kv ws2 kvs2 hpkv hrest ih =>
    obtain ⟨k, w⟩ := p
    obtain ⟨k2, v2⟩ := kv
    obtain ⟨hk, hv⟩ := hpkv
    simp only at hk
    rw [toPyProps]
    refine List.Forall₂.cons ⟨?_, hv⟩ (ih fun y hy => hkeys y (by simp [hy]))
    simp only [hk]
    exact pushedStr_roundtrip k2 (hkeys (k2, v2) (by simp))

theorem lookupKV_cons_ne (k2 k : List Nat) (v : PyValue)
    (d : List (List Nat × PyValue)) (h : k2 ≠ k) :
    lookupKV ((k2, v) :: d) k = lookupKV d k := by
  simp [lookupKV, h]

/-- If two key-value lists agree key-for-key with `pyEq` values, and the
reference dict has distinct keys, then CPython's one-sided dict sweep
succeeds. -/
theorem pyEqDict_aligned (ds kvs kvsFull : List (List Nat × PyValue))
    (hrel : List.Forall₂ (fun (a b : List Nat × PyValue) =>
      a.1 = b.1 ∧ pyEq a.2 b.2 = true) ds kvs)
    (hnodup : (kvs.map Prod.fst).Nodup)
    (hlook : ∀ k ∈ kvs.map Prod.fst, lookupKV kvsFull k = lookupKV kvs k) :
    pyEqDict ds kvsFull = true := by
  induction hrel with
  | nil => simp [pyEqDict]
  | @cons a b ds2 kvs2 hab hrest ih =>
    obtain ⟨k1, dv⟩ := a
    obtain ⟨k2, v⟩ := b
    obtain ⟨hk, hv⟩ := hab
    simp only at hk
    subst hk
    simp only [List.map_cons, List.nodup_cons] at hnodup
    rw [pyEqDict]
    have hl : lookupKV kvsFull k1 = some v := by
      rw [hlook k1 (by simp), lookupKV]
      simp
    rw [hl]
    simp only [hv, Bool.true_and]
    apply ih hnodup.2
    intro k hkmem
    have hne : k1 ≠ k := fun he => hnodup.1 (he ▸ hkmem)
    rw [hlook k (by simp [hkmem]), lookupKV_cons_ne k1 k v kvs2 hne]

/-- Claim C1's engine: every `RTValue` encodes to a single pushed script
value that decodes back `==`-equal. -/
theorem rt_roundtrip (ctx : PyCtx) (v : PyValue) (h : RTValue v) :
    ∃ w, (∀ st, to_js ctx v st = (w :: st, Option.none)) ∧
      pyEq (to_python ctx w) v = true := by
  induction h with
  | none =>
    exact ⟨.null, fun st => by simp [to_js], by simp [to_python, pyEq, toNum]⟩
  | bool b =>
    refine ⟨.boolean b, fun st => by simp [to_js], ?_⟩
    cases b <;> simp [to_python, pyEq, toNum, jsNumEq]
  | int n hn =>
    refine ⟨.number (.finite (n : ℚ)), fun st => by
      simp [to_js, intToDouble_exact n hn], ?_⟩
    simp [to_python, Rat.den_intCast, Rat.num_intCast, pyEq, toNum, jsNumEq]
  | finite q =>
    refine ⟨.number (.finite q), fun st => by simp [to_js], ?_⟩
    by_cases hden : q.den = 1
    · simp only [to_python, hden, if_pos]
      simp [pyEq, toNum, jsNumEq]
      exact (Rat.den_eq_one_iff q).mp hden
    · simp only [to_python, hden, if_false]
      simp [pyEq, toNum, jsNumEq]
  | inf =>
    exact ⟨.number .inf, fun st => by simp [to_js],
      by simp [to_python, pyEq, toNum, jsNumEq]⟩
  | ninf =>
    exact ⟨.number .ninf, fun st => by simp [to_js],
      by simp [to_python, pyEq, toNum, jsNumEq]⟩
  | str cps hg =>
    refine ⟨.str (pushedStr cps), fun st => by simp [to_js], ?_⟩
    simp [to_python, pushedStr_roundtrip cps hg, pyEq, toNum]
  | list xs hmem ih =>
    obtain ⟨ws, hrun, heq⟩ := to_js_seq_ok ctx xs ih
    refine ⟨.array ws, fun st => ?_, ?_⟩
    · have h0 : (0 : Nat) = ([] : List JsValue).length := rfl
      rw [to_js, h0, hrun [] st]
      simp
    · simp [to_python, pyEq, toNum, heq]
  | dict kvs hkeys hmem hnodup ih =>
    have hinj : ∀ x ∈ kvs.map Prod.fst, ∀ y ∈ kvs.map Prod.fst,
        pushedStr x = pushedStr y → x = y := by
      intro x hx y hy hxy
      have hgx : GoodText x := by
        obtain ⟨kv, hkv, hfst⟩ := List.mem_map.mp hx
        exact hfst ▸ hkeys kv hkv
      have hgy : GoodText y := by
        obtain ⟨kv, hkv, hfst⟩ := List.mem_map.mp hy
        exact hfst ▸ hkeys kv hkv
      have := congrArg unicode_decode_cesu8 hxy
      rwa [pushedStr_roundtrip x hgx, pushedStr_roundtrip y hgy] at this
    have hnodup2 : (kvs.map fun kv => pushedStr kv.1).Nodup := by
      have hmap : (kvs.map fun kv => pushedStr kv.1) =
          (kvs.map Prod.fst).map pushedStr := by simp [List.map_map]
      rw [hmap]
      exact List.Nodup.map_on hinj hnodup
    obtain ⟨ws, hrel, hrun⟩ := to_js_map_ok ctx kvs ih hnodup2
    refine ⟨.object .objectProto ws, fun st => ?_, ?_⟩
    · have := hrun [] st (by simp)
      simp only [List.nil_append] at this
      simp [to_js, this]
    · have hdec : to_python ctx (.object .objectProto ws) =
          .dict (toPyProps ctx ws) := by simp [to_python]
      rw [hdec]
      have hrel2 := toPyProps_rel ctx ws kvs hrel hkeys
      have hlen : (toPyProps ctx ws).length = kvs.length := by
        rw [toPyProps_length]
        exact List.Forall₂.length_eq hrel
      have hsweep := pyEqDict_aligned (toPyProps ctx ws) kvs kvs hrel2 hnodup
        (fun k _ => rfl)
      simp [pyEq, toNum, hlen, hsweep]

/-! ## §6 Stack-shape of `to_js` (claim C7) -/

/-- Shape statement for one `to_js` call: either exactly one value is pushed
(success) or an error is raised with the stack extended by some (possibly
empty) junk prefix — never with anything below the caller's stack touched. -/
def PushShape (ctx : PyCtx) (v : PyValue) (st : List JsValue) : Prop :=
  (∃ w, to_js ctx v st = (w :: st, Option.none)) ∨
  (∃ junk e, to_js ctx v st = (junk ++ st, some e))

theorem to_js_seq_shape (ctx : PyCtx) (xs : List PyValue)
    (hx : ∀ x ∈ xs, ∀ st, PushShape ctx x st) :
    ∀ i stTop st,
      (∃ t2, to_js_seq ctx xs i (stTop :: st) = (t2 :: st, Option.none)) ∨
      (∃ junk e, junk ≠ [] ∧
        to_js_seq ctx xs i (stTop :: st) = (junk ++ st, some e)) := by
  induction xs with
  | nil => exact fun i stTop st => Or.inl ⟨stTop, by simp [to_js_seq]⟩
  | cons x rest ih =>
    intro i stTop st
    rcases hx x (by simp) (stTop :: st) with ⟨w, hw⟩ | ⟨junk, e, he⟩
    · have hput : ∃ t2, dukPutPropIndex (w :: stTop :: st) i = t2 :: st := by
        rcases stTop with _ | _ | _ | _ | _ | _ | _ | _ | _ | _ | _ | _ | _ <;>
          exact ⟨_, rfl⟩
      obtain ⟨t2, ht2⟩ := hput
      rcases ih (fun y hy => hx y (by simp [hy])) (i + 1) t2 st with
        ⟨t3, ht3⟩ | ⟨junk2, e2, hne2, he2⟩
      · exact Or.inl ⟨t3, by simp only [to_js_seq, hw]; rw [ht2]; exact ht3⟩
      · exact Or.inr ⟨junk2, e2, hne2, by
          simp only [to_js_seq, hw]; rw [ht2]; exact he2⟩
    · refine Or.inr ⟨junk ++ [stTop], e, by simp, ?_⟩
      simp only [to_js_seq, he]
      simp
  
theorem to_js_map_shape (ctx : PyCtx) (kvs : List (List Nat × PyValue))
    (hx : ∀ kv ∈ kvs, ∀ st, PushShape ctx kv.2 st) :
    ∀ stTop st,
      (∃ t2, to_js_map ctx kvs (stTop :: st) = (t2 :: st, Option.none)) ∨
      (∃ junk e, junk ≠ [] ∧
        to_js_map ctx kvs (stTop :: st) = (junk ++ st, some e)) := by
  induction kvs with
  | nil => exact fun stTop st => Or.inl ⟨stTop, by simp [to_js_map]⟩
  | cons kv rest ih =>
    obtain ⟨k, v⟩ := kv
    intro stTop st
    rcases hx (k, v) (by simp) (stTop :: st) with ⟨w, hw⟩ | ⟨junk, e, he⟩
    · have hput : ∃ t2, dukPutPropString (w :: stTop :: st) (pushedStr k) =
          t2 :: st := by
        rcases stTop with _ | _ | _ | _ | _ | _ | _ | _ | _ | _ | _ | _ | _ <;>
          exact ⟨_, rfl⟩
      obtain ⟨t2, ht2⟩ := hput
      rcases ih (fun y hy => hx y (by simp [hy])) t2 st with
        ⟨t3, ht3⟩ | ⟨junk2, e2, hne2, he2⟩
      · exact Or.inl ⟨t3, by simp only [to_js_map, hw]; rw [ht2]; exact ht3⟩
      · exact Or.inr ⟨junk2, e2, hne2, by
          simp only [to_js_map, hw]; rw [ht2]; exact he2⟩
    · refine Or.inr ⟨junk ++ [stTop], e, by simp, ?_⟩
      simp only [to_js_map, he]
      simp

/-- Every `to_js` call either pushes exactly one value or raises leaving a
junk prefix on top of the caller's stack, by strong induction on the host
value. -/
theorem to_js_shape (ctx : PyCtx) (v : PyValue) (st : List JsValue) :
    PushShape ctx v st := by
  have main : ∀ (N : Nat) (v : PyValue), sizeOf v ≤ N → ∀ st2,
      PushShape ctx v st2 := by
    intro N
    induction N using Nat.strong_induction_on with
    | _ N ih =>
    intro v hv st2
    have ihv : ∀ (x : PyValue), sizeOf x < sizeOf v → ∀ st3,
        PushShape ctx x st3 :=
      fun x hx st3 => ih (sizeOf x) (by omega) x le_rfl st3
    clear ih hv
    cases v with
  | none => exact Or.inl ⟨.null, by simp [to_js]⟩
  | bool b => exact Or.inl ⟨.boolean b, by simp [to_js]⟩
  | int n => exact Or.inl ⟨.number (intToDouble n), by simp [to_js]⟩
  | float x => exact Or.inl ⟨.number x, by simp [to_js]⟩
  | str cps => exact Or.inl ⟨.str (pushedStr cps), by simp [to_js]⟩
  | pydatetime u => exact Or.inl ⟨to_js_date (.pydatetime u), by simp [to_js]⟩
  | pydate d => exact Or.inl ⟨to_js_date (.pydate d), by simp [to_js]⟩
  | pytime t => exact Or.inl ⟨to_js_date (.pytime t), by simp [to_js]⟩
  | proxy k r =>
    exact Or.inl ⟨(ctx.refMap r).getD .undefined, by simp [to_js]⟩
  | hostError msg =>
    exact Or.inl ⟨.pythonError (pushedStr dukErrorName) (.str [])
      (.array [.str (pushedStr msg)]) Option.none, by simp [to_js]⟩
  | unsupported tname =>
    exact Or.inr ⟨[], .typeError tname, by simp [to_js]⟩
  | list xs =>
    have hmem : ∀ x ∈ xs, ∀ st2, PushShape ctx x st2 := by
      intro x hx st2
      have : sizeOf x < sizeOf (PyValue.list xs) := by
        have := List.sizeOf_lt_of_mem hx
        simp only [PyValue.list.sizeOf_spec]
        omega
      exact ihv x this st2
    rcases to_js_seq_shape ctx xs hmem 0 (.array []) st2 with
      ⟨t2, ht2⟩ | ⟨junk, e, _, he⟩
    · exact Or.inl ⟨t2, by simp [to_js, ht2]⟩
    · exact Or.inr ⟨junk, e, by simp [to_js, he]⟩
  | tuple xs =>
    have hmem : ∀ x ∈ xs, ∀ st2, PushShape ctx x st2 := by
      intro x hx st2
      have : sizeOf x < sizeOf (PyValue.tuple xs) := by
        have := List.sizeOf_lt_of_mem hx
        simp only [PyValue.tuple.sizeOf_spec]
        omega
      exact ihv x this st2
    rcases to_js_seq_shape ctx xs hmem 0 (.array []) st2 with
      ⟨t2, ht2⟩ | ⟨junk, e, _, he⟩
    · exact Or.inl ⟨t2, by simp [to_js, ht2]⟩
    · exact Or.inr ⟨junk, e, by simp [to_js, he]⟩
  | dict kvs =>
    have hmem : ∀ kv ∈ kvs, ∀ st2, PushShape ctx kv.2 st2 := by
      intro kv hkv st2
      have : sizeOf kv.2 < sizeOf (PyValue.dict kvs) := by
        have h1 := List.sizeOf_lt_of_mem hkv
        have h2 : sizeOf kv.2 < sizeOf kv := by
          obtain ⟨a, b⟩ := kv
          show sizeOf b < sizeOf (a, b)
          simp only [Prod.mk.sizeOf_spec]
          omega
        simp only [PyValue.dict.sizeOf_spec]
        omega
      exact ihv kv.2 this st2
    rcases to_js_map_shape ctx kvs hmem (.object .objectProto []) st2 with
      ⟨t2, ht2⟩ | ⟨junk, e, _, he⟩
    · exact Or.inl ⟨t2, by simp [to_js, ht2]⟩
    · exact Or.inr ⟨junk, e, by simp [to_js, he]⟩
  | exc name args =>
    have hmem : ∀ x ∈ args, ∀ st2, PushShape ctx x st2 := by
      intro x hx st2
      have : sizeOf x < sizeOf (PyValue.exc name args) := by
        have := List.sizeOf_lt_of_mem hx
        simp only [PyValue.exc.sizeOf_spec]
        omega
      exact ihv x this st2
    rcases to_js_seq_shape ctx args hmem 0 (.array [])
        (.str [] :: .str (pushedStr name) :: .cfunc 0 :: st2) with
      ⟨t2, ht2⟩ | ⟨junk, e, _, he⟩
    · refine Or.inl ⟨.pythonError (pushedStr name) (.str []) t2 Option.none,
        ?_⟩
      simp only [to_js, ht2]
    · refine Or.inr ⟨junk ++ [.str [], .str (pushedStr name), .cfunc 0], e,
        ?_⟩
      simp only [to_js, he]
      simp
  exact main (sizeOf v) v le_rfl st

/-! ## §7 Claim theorems for the codec (C1, C2, C4, C6, C7, C9) -/

/-- C2: per code point `cp`, `unicode_encode_cesu8` emits one byte equal to
`cp` below U+0080, two bytes for U+0080..U+07FF, three bytes for
U+0800..U+FFFF, and for `cp` above U+FFFF exactly the six bytes
`0xED, 0xA0+(((cp-0x10000) >> 16) & 0xF), 0x80+(((cp-0x10000) >> 10) & 0x3F),
0xED, 0xB0+(((cp-0x10000) >> 6) & 0xF), 0x80+((cp-0x10000) & 0x3F)`
(shifts and masks written as division and remainder), the encoder being the
concatenation of the per-code-point encodings over the host string. -/
theorem C2_cesu8_encoder (cps : List Nat) (cp : Nat) :
    unicode_encode_cesu8 cps = cps.flatMap encodeCp ∧
    (cp < 0x80 → encodeCp cp = [cp]) ∧
    (0x80 ≤ cp → cp ≤ 0x7ff → (encodeCp cp).length = 2) ∧
    (0x800 ≤ cp → cp ≤ 0xffff → (encodeCp cp).length = 3) ∧
    (0xffff < cp → encodeCp cp =
      [0xed, 0xa0 + (cp - 0x10000) / 65536 % 16,
       0x80 + (cp - 0x10000) / 1024 % 64,
       0xed, 0xb0 + (cp - 0x10000) / 64 % 16,
       0x80 + (cp - 0x10000) % 64]) := by
  refine ⟨rfl, ?_, ?_, ?_, ?_⟩
  · intro h1
    simp [encodeCp, h1]
  · intro h1 h2
    have g1 : ¬ cp < 0x80 := by omega
    have g2 : cp < 0x800 := by omega
    simp [encodeCp, g1, g2]
  · intro h1 h2
    have g1 : ¬ cp < 0x80 := by omega
    have g2 : ¬ cp < 0x800 := by omega
    have g3 : cp < 0x10000 := by omega
    simp [encodeCp, g1, g2, g3]
  · intro h1
    have g1 : ¬ cp < 0x80 := by omega
    have g2 : ¬ cp < 0x800 := by omega
    have g3 : ¬ cp < 0x10000 := by omega
    simp [encodeCp, g1, g2, g3]

theorem C2_cesu8_encoder_witness :
    (0xffff < 0x1f600 ∧ encodeCp 0x1f600 =
      [0xed, 0xa0 + (0x1f600 - 0x10000) / 65536 % 16,
       0x80 + (0x1f600 - 0x10000) / 1024 % 64,
       0xed, 0xb0 + (0x1f600 - 0x10000) / 64 % 16,
       0x80 + (0x1f600 - 0x10000) % 64]) ∧
    (0x61 < 0x80 ∧ encodeCp 0x61 = [0x61]) :=
  ⟨⟨by norm_num, (C2_cesu8_encoder [0x1f600] 0x1f600).2.2.2.2 (by norm_num)⟩,
   ⟨by norm_num, ((C2_cesu8_encoder [0x61] 0x61).2.1) (by norm_num)⟩⟩

/-- C1 (amended): for host values of the primitive-and-container kinds —
`None`, bools, ints exactly representable in the script double
(`|n| <= 2^53`), floats other than NaN, text of Unicode scalar values not
containing U+0000, and lists/dicts (string keys) of such values — encoding
pushes exactly one script value and decoding it yields a host value `==` to
the original. -/
theorem C1_roundtrip_amended (v : PyValue) (h : RTValue v) :
    ∃ w, to_js ctx0 v [] = ([w], Option.none) ∧
      pyEq (to_python ctx0 w) v = true := by
  obtain ⟨w, hw, heq⟩ := rt_roundtrip ctx0 v h
  exact ⟨w, hw [], heq⟩

def c1Sample : PyValue :=
  .dict [([97], .int 3),
         ([98], .list [.none, .bool true, .float (.finite (1 / 2)),
                       .str [104, 0x1f600]])]

theorem C1_roundtrip_witness :
    ∃ w, to_js ctx0 c1Sample [] = ([w], Option.none) ∧
      pyEq (to_python ctx0 w) c1Sample = true := by
  apply C1_roundtrip_amended
  refine RTValue.dict _ ?_ ?_ ?_
  · intro kv hkv
    simp only [c1Sample, List.mem_cons, List.not_mem_nil, or_false] at hkv
    rcases hkv with h | h <;> subst h <;> decide
  · intro kv hkv
    simp only [c1Sample, List.mem_cons, List.not_mem_nil, or_false] at hkv
    rcases hkv with h | h <;> subst h
    · exact RTValue.int 3 (by norm_num)
    · refine RTValue.list _ ?_
      intro x hx
      simp only [List.mem_cons, List.not_mem_nil, or_false] at hx
      rcases hx with h | h | h | h <;> subst h
      · exact RTValue.none
      · exact RTValue.bool true
      · exact RTValue.finite _
      · exact RTValue.str _ (by decide)
  · simp [c1Sample]

theorem intToDouble_two_pow53_succ :
    intToDouble (2 ^ 53 + 1) = .finite ((9007199254740992 : ℚ)) := by
  have habs : ((2 : Int) ^ 53 + 1).natAbs = 2 ^ 53 + 1 := by decide
  have hlog : Nat.log 2 (2 ^ 53 + 1) = 53 :=
    Nat.log_eq_of_pow_le_of_lt_pow (by norm_num) (by norm_num)
  unfold intToDouble roundToDoubleInt
  simp only [habs, hlog]
  norm_num
  have hs : Int.sign 9007199254740993 = 1 := by decide
  rw [hs]
  norm_num

/-- C1 counterexample: the round trip fails as stated for (a) the float NaN
(NaN is not `==` to itself), (b) the int `2^53 + 1` (rounded to `2^53` by
the int-to-double conversion), and (c) text containing U+0000 (truncated at
the NUL-terminated C string boundary). -/
theorem C1_roundtrip_counterexample :
    (to_js ctx0 (.float .nan) [] = ([.number .nan], Option.none) ∧
      pyEq (to_python ctx0 (.number .nan)) (.float .nan) = false) ∧
    (to_js ctx0 (.int (2 ^ 53 + 1)) [] =
        ([.number (.finite ((9007199254740992 : ℚ)))], Option.none) ∧
      pyEq (to_python ctx0 (.number (.finite ((9007199254740992 : ℚ)))))
        (.int (2 ^ 53 + 1)) = false) ∧
    (to_js ctx0 (.str [97, 0, 98]) [] = ([.str [97]], Option.none) ∧
      pyEq (to_python ctx0 (.str [97])) (.str [97, 0, 98]) = false) := by
  refine ⟨⟨by simp [to_js], ?_⟩, ⟨?_, ?_⟩, ⟨?_, ?_⟩⟩
  · simp [to_python, pyEq, toNum, jsNumEq]
  · have h := intToDouble_two_pow53_succ
    have h2 : (2 : Int) ^ 53 + 1 = 9007199254740993 := by norm_num
    rw [h2] at h
    simp [to_js, h]
  · have hden : ((9007199254740992 : ℚ)).den = 1 := rfl
    have hnum : ((9007199254740992 : ℚ)).num = 9007199254740992 := rfl
    simp only [to_python, hden, if_pos, hnum]
    simp [pyEq, toNum, jsNumEq]
  · have hp : pushedStr [97, 0, 98] = [97] := rfl
    simp [to_js, hp]
  · have hdec : unicode_decode_cesu8 [97] = [97] := by
      have h := text_roundtrip [97] (by decide)
      simpa [unicode_encode_cesu8, encodeCp] using h
    simp [to_python, hdec, pyEq, toNum]

/-! ### The decode float path: helper facts about `roundHalfEven` and
`ratToDouble`, and the two regimes of the `epoch_usec` round trip -/

theorem roundHalfEven_intCast (n : Int) : roundHalfEven (n : ℚ) = n := by
  simp [roundHalfEven, Int.floor_intCast]

theorem roundHalfEven_sub_abs (q : ℚ) : |(roundHalfEven q : ℚ) - q| ≤ 1/2 := by
  have hf0 : (⌊q⌋ : ℚ) ≤ q := Int.floor_le q
  have hf1 : q < ⌊q⌋ + 1 := Int.lt_floor_add_one q
  unfold roundHalfEven
  split_ifs with h1 h2 h3 <;> rw [abs_le] <;> constructor <;> push_cast <;>
    linarith

theorem roundHalfEven_eq_of_abs_lt (q : ℚ) (n : Int) (h : |q - n| < 1/2) :
    roundHalfEven q = n := by
  rw [abs_lt] at h
  rcases le_or_lt (n : ℚ) q with hge | hlt
  · have hfl : ⌊q⌋ = n := by
      rw [Int.floor_eq_iff]
      exact ⟨hge, by linarith⟩
    rw [roundHalfEven, hfl, if_pos (by linarith)]
  · have hfl : ⌊q⌋ = n - 1 := by
      rw [Int.floor_eq_iff]
      constructor
      · push_cast; linarith
      · push_cast; linarith
    rw [roundHalfEven, hfl, if_neg (by push_cast; linarith),
      if_pos (by push_cast; linarith)]
    omega

theorem int_log2_eq (q : ℚ) (e : Int) (h1 : (2:ℚ)^e ≤ q)
    (h2 : q < (2:ℚ)^(e+1)) : Int.log 2 q = e := by
  have hq : 0 < q := lt_of_lt_of_le (zpow_pos (by norm_num) e) h1
  have hc : ((2:ℕ):ℚ) = (2:ℚ) := by norm_num
  have ha : e ≤ Int.log 2 q := by
    rw [← Int.zpow_le_iff_le_log one_lt_two hq, hc]
    exact h1
  have hb : Int.log 2 q < e + 1 := by
    rw [← Int.lt_zpow_iff_log_lt one_lt_two hq, hc]
    exact h2
  omega

theorem ratToDouble_err (q : ℚ) (hq : 0 < q) (m : Int) (hm : q < (2:ℚ)^m) :
    |ratToDouble q - q| ≤ (2:ℚ)^(m - 54) := by
  have he : Int.log 2 q < m := by
    rw [← Int.lt_zpow_iff_log_lt one_lt_two hq,
      (by norm_num : (((2:ℕ)):ℚ) = (2:ℚ))]
    exact hm
  rw [ratToDouble, if_neg (ne_of_gt hq), if_neg (not_lt.mpr (le_of_lt hq))]
  have hp : (0:ℚ) < 2 ^ (Int.log 2 q - 52) := zpow_pos (by norm_num) _
  have hsub : (roundHalfEven (q / 2 ^ (Int.log 2 q - 52)) : ℚ) *
      2 ^ (Int.log 2 q - 52) - q =
      ((roundHalfEven (q / 2 ^ (Int.log 2 q - 52)) : ℚ) -
        q / 2 ^ (Int.log 2 q - 52)) * 2 ^ (Int.log 2 q - 52) := by
    rw [sub_mul, div_mul_cancel₀ _ (ne_of_gt hp)]
  rw [hsub, abs_mul, abs_of_pos hp]
  calc |(roundHalfEven (q / 2 ^ (Int.log 2 q - 52)) : ℚ) -
        q / 2 ^ (Int.log 2 q - 52)| * 2 ^ (Int.log 2 q - 52)
      ≤ (1/2) * 2 ^ (Int.log 2 q - 52) :=
        mul_le_mul_of_nonneg_right (roundHalfEven_sub_abs _) (le_of_lt hp)
    _ = 2 ^ (Int.log 2 q - 53) := by
        rw [show Int.log 2 q - 53 = (Int.log 2 q - 52) + (-1) by ring,
          zpow_add₀ (by norm_num : (2:ℚ) ≠ 0), zpow_neg_one]
        ring
    _ ≤ 2 ^ (m - 54) := by
        apply zpow_le_zpow_right₀ (by norm_num : (1:ℚ) ≤ 2)
        omega

theorem ratToDouble_int (n : Int) (h0 : 0 ≤ n) (h : n < 9007199254740992) :
    ratToDouble (n : ℚ) = (n : ℚ) := by
  rcases eq_or_lt_of_le h0 with h00 | hpos
  · rw [← h00]
    simp [ratToDouble]
  · have hq : (0:ℚ) < (n:ℚ) := by exact_mod_cast hpos
    have he1 : (0:Int) ≤ Int.log 2 (n:ℚ) := by
      rw [← Int.zpow_le_iff_le_log one_lt_two hq]
      simpa using (by exact_mod_cast hpos : (1:ℚ) ≤ (n:ℚ))
    have he2 : Int.log 2 (n:ℚ) < 53 := by
      rw [← Int.lt_zpow_iff_log_lt one_lt_two hq]
      have hv : ((2:ℕ):ℚ) ^ (53:Int) = 9007199254740992 := by
        norm_num
      rw [hv]
      exact_mod_cast h
    rw [ratToDouble, if_neg (ne_of_gt hq), if_neg (not_lt.mpr (le_of_lt hq))]
    set e := Int.log 2 (n:ℚ) with hedef
    set m := (52 - e).toNat with hmdef
    have hm : (m : Int) = 52 - e := Int.toNat_of_nonneg (by omega)
    have hx : (n:ℚ) / 2 ^ (e - 52) = ((n * 2 ^ m : Int) : ℚ) := by
      rw [div_eq_mul_inv, ← zpow_neg, show -(e - 52) = (m:Int) by omega,
        zpow_natCast]
      push_cast
      ring
    rw [hx, roundHalfEven_intCast]
    push_cast
    rw [mul_assoc, ← zpow_natCast (2:ℚ) m,
      ← zpow_add₀ (by norm_num : (2:ℚ) ≠ 0),
      show (m:Int) + (e - 52) = 0 by omega, zpow_zero, mul_one]

/-- Exact regime of the decode float path: below `2^33` epoch seconds the
double spacing is under a microsecond, and the pipeline `double(u)`, divide
by `1e6`, `modf`, multiply by `1e6`, round half-even recovers `u`
exactly. -/
theorem utc_stash_exact (u : Int) (h0 : 0 ≤ u) (h1 : u < 8589934592000000) :
    utcfromtimestampUsec (ratToDouble (ratToDouble (u : ℚ) / 1000000)) = u := by
  rw [ratToDouble_int u h0 (by omega)]
  have hk0 : 0 ≤ Int.ediv u 1000000 := Int.ediv_nonneg h0 (by norm_num)
  have hr0 : 0 ≤ Int.emod u 1000000 := Int.emod_nonneg u (by norm_num)
  have hr1 : Int.emod u 1000000 < 1000000 := Int.emod_lt_of_pos u (by norm_num)
  have hkr : 1000000 * Int.ediv u 1000000 + Int.emod u 1000000 = u :=
    Int.ediv_add_emod u 1000000
  set k := Int.ediv u 1000000 with hkdef
  set r := Int.emod u 1000000 with hrdef
  have hq : (u:ℚ) / 1000000 = (k:ℚ) + (r:ℚ) / 1000000 := by
    rw [← hkr]
    push_cast
    ring
  by_cases hr00 : r = 0
  · have hs : ratToDouble ((u:ℚ) / 1000000) = (k:ℚ) := by
      rw [hq, hr00]
      norm_num
      exact ratToDouble_int k hk0 (by omega)
    rw [hs]
    simp only [utcfromtimestampUsec, ratTrunc,
      if_neg (not_lt.mpr (by exact_mod_cast hk0 : (0:ℚ) ≤ (k:ℚ))),
      Int.floor_intCast]
    norm_num [ratToDouble, roundHalfEven]
    omega
  · have hub : (u:ℚ) / 1000000 < (2:ℚ)^(33:Int) := by
      have h2 : ((2:ℚ))^((33:Int)) = 8589934592 := by norm_num
      rw [h2, div_lt_iff₀ (by norm_num)]
      have h3 : (u:ℚ) < 8589934592000000 := by exact_mod_cast h1
      linarith
    have hqpos : (0:ℚ) < (u:ℚ) / 1000000 := by
      have hu1 : (1:ℚ) ≤ (u:ℚ) := by exact_mod_cast (by omega : (1:Int) ≤ u)
      positivity
    have herr := ratToDouble_err _ hqpos 33 hub
    have h21 : ((2:ℚ))^((33:Int) - 54) = 1/2097152 := by norm_num
    rw [h21, abs_le] at herr
    set s := ratToDouble ((u:ℚ) / 1000000) with hsdef
    have hrq1 : (1:ℚ) ≤ (r:ℚ) := by exact_mod_cast (by omega : (1:Int) ≤ r)
    have hrq2 : (r:ℚ) ≤ 999999 := by exact_mod_cast (by omega : r ≤ 999999)
    have hlow : (k:ℚ) < s := by
      have hl := herr.1
      rw [hq] at hl
      linarith
    have hhigh : s < (k:ℚ) + 1 := by
      have hh := herr.2
      rw [hq] at hh
      linarith
    have hfl : ⌊s⌋ = k := by
      rw [Int.floor_eq_iff]
      exact ⟨le_of_lt hlow, hhigh⟩
    have hs0 : ¬ s < 0 := by
      have hkq : (0:ℚ) ≤ (k:ℚ) := by exact_mod_cast hk0
      push_neg
      linarith
    simp only [utcfromtimestampUsec, ratTrunc, if_neg hs0, hfl]
    have hvpos : (0:ℚ) < (s - (k:ℚ)) * 1000000 := by nlinarith
    have hvub : (s - (k:ℚ)) * 1000000 < (2:ℚ)^(20:Int) := by
      have h2 : ((2:ℚ))^((20:Int)) = 1048576 := by norm_num
      rw [h2]
      nlinarith
    have herr2 := ratToDouble_err _ hvpos 20 hvub
    have h34 : ((2:ℚ))^((20:Int) - 54) = 1/17179869184 := by norm_num
    rw [h34] at herr2
    have hvr : |(s - (k:ℚ)) * 1000000 - (r:ℚ)| ≤ 1000000 * (1/2097152) := by
      have hexp : (s - (k:ℚ)) * 1000000 - (r:ℚ) =
          (s - (u:ℚ) / 1000000) * 1000000 := by
        rw [hq]
        ring
      rw [hexp, abs_mul, abs_of_nonneg (by norm_num : (0:ℚ) ≤ 1000000)]
      have habs : |s - (u:ℚ) / 1000000| ≤ 1/2097152 := abs_le.mpr herr
      nlinarith [abs_nonneg (s - (u:ℚ) / 1000000)]
    have hus : roundHalfEven (ratToDouble ((s - (k:ℚ)) * 1000000)) = r := by
      apply roundHalfEven_eq_of_abs_lt
      calc |ratToDouble ((s - (k:ℚ)) * 1000000) - (r:ℚ)|
          ≤ |ratToDouble ((s - (k:ℚ)) * 1000000) - (s - (k:ℚ)) * 1000000| +
            |(s - (k:ℚ)) * 1000000 - (r:ℚ)| := abs_sub_le _ _ _
        _ ≤ 1/17179869184 + 1000000 * (1/2097152) := add_le_add herr2 hvr
        _ < 1/2 := by norm_num
    rw [hus, if_neg (by omega), if_neg (by omega)]
    omega

/-- Lossy regime of the decode float path: at epoch microsecond count
`253402300799123456` (the valid datetime `9999-12-31 23:59:59.123456`) the
int64 converts to a double exactly, but the quotient's binade has a spacing
of `2^-15` seconds (about 30.5 microseconds), and the pipeline lands on
`...123444`. -/
theorem utc_stash_lossy :
    utcfromtimestampUsec
      (ratToDouble (ratToDouble (253402300799123456 : ℚ) / 1000000)) =
      253402300799123444 := by
  have h_in : ratToDouble (253402300799123456 : ℚ) = 253402300799123456 := by
    have he1 : Int.log 2 (253402300799123456 : ℚ) = 57 :=
      int_log2_eq _ 57 (by norm_num) (by norm_num)
    rw [ratToDouble, if_neg (by norm_num), if_neg (by norm_num), he1]
    have hx : (253402300799123456:ℚ) / 2^((57:Int)-52) =
        ((7918821899972608 : Int) : ℚ) := by norm_num
    rw [hx, roundHalfEven_intCast]
    norm_num
  rw [h_in]
  have he2 : Int.log 2 ((253402300799123456:ℚ)/1000000) = 37 :=
    int_log2_eq _ 37 (by norm_num) (by norm_num)
  have h_d2 : ratToDouble ((253402300799123456:ℚ)/1000000) =
      8303486592585677/32768 := by
    rw [ratToDouble, if_neg (by norm_num), if_neg (by norm_num), he2]
    have hx : (253402300799123456:ℚ)/1000000 / 2^((37:Int)-52) =
        129741978009151209472/15625 := by norm_num
    rw [hx]
    have hfl : ⌊(129741978009151209472/15625 : ℚ)⌋ = 8303486592585677 := by
      rw [Int.floor_eq_iff]
      constructor
      · norm_num
      · norm_num
    rw [roundHalfEven, hfl, if_pos (by norm_num)]
    norm_num
  rw [h_d2]
  have hfl2 : ⌊(8303486592585677/32768 : ℚ)⌋ = 253402300799 := by
    rw [Int.floor_eq_iff]
    constructor
    · norm_num
    · norm_num
  have hv : ((8303486592585677:ℚ)/32768 - ((253402300799 : Int) : ℚ)) *
      1000000 = 63203125/512 := by norm_num
  have he3 : Int.log 2 ((63203125:ℚ)/512) = 16 :=
    int_log2_eq _ 16 (by norm_num) (by norm_num)
  have h_d3 : ratToDouble ((63203125:ℚ)/512) = 63203125/512 := by
    rw [ratToDouble, if_neg (by norm_num), if_neg (by norm_num), he3]
    have hx : (63203125:ℚ)/512 / 2^((16:Int)-52) =
        ((8482979840000000 : Int) : ℚ) := by norm_num
    rw [hx, roundHalfEven_intCast]
    norm_num
  have hus : roundHalfEven ((63203125:ℚ)/512) = 123444 := by
    have hfl3 : ⌊(63203125/512 : ℚ)⌋ = 123443 := by
      rw [Int.floor_eq_iff]
      constructor
      · norm_num
      · norm_num
    rw [roundHalfEven, hfl3, if_neg (by norm_num), if_pos (by norm_num)]
    norm_num
  simp only [utcfromtimestampUsec, ratTrunc,
    if_neg (by norm_num : ¬ (8303486592585677/32768 : ℚ) < 0),
    hfl2, hv, h_d3, hus]
  norm_num

/-- C4 (amended): a host datetime at or after the Unix epoch whose
microsecond count `u` is below `2^33 * 10^6` (UTC instants up to the year
2242, where the double spacing at `u/1e6` seconds stays under a
microsecond) encodes to a script `Date` that stashes exactly `u` in the
hidden `epoch_usec` slot (with `dt_type` `"datetime"`), and decoding that
value yields the host datetime with the identical microsecond count — not
a value truncated or rounded to millisecond precision.  Beyond that range
the stash is still exact but the decode's float division and
`utcfromtimestamp` lose low microsecond digits. -/
theorem C4_date_roundtrip_amended (u : Int) (h0 : 0 ≤ u)
    (h1 : u < 8589934592000000) :
    (∃ ms, to_js_date (.pydatetime u) = .jsDate (some u) (some dtDatetime) ms) ∧
    to_js ctx0 (.pydatetime u) [] =
      ([to_js_date (.pydatetime u)], Option.none) ∧
    to_python ctx0 (to_js_date (.pydatetime u)) = .pydatetime u := by
  refine ⟨⟨_, rfl⟩, by simp [to_js], ?_⟩
  simp only [to_js_date, to_python, decodeDate]
  have hn1 : dtDatetime ≠ dtDate := by decide
  have hn2 : dtDatetime ≠ dtTime := by decide
  simp only [Option.getD_some, hn1, hn2, if_false]
  rw [utc_stash_exact u h0 h1]

theorem C4_date_roundtrip_witness :
    ((0:Int) ≤ 1685620800123456 ∧ (1685620800123456:Int) < 8589934592000000) ∧
    to_python ctx0 (to_js_date (.pydatetime 1685620800123456)) =
      .pydatetime 1685620800123456 :=
  ⟨⟨by norm_num, by norm_num⟩,
    (C4_date_roundtrip_amended 1685620800123456 (by norm_num)
      (by norm_num)).2.2⟩

/-- C4 counterexample: the valid host datetime `9999-12-31 23:59:59.123456`
(epoch microsecond count `253402300799123456`) encodes to a `Date` whose
hidden stash holds exactly that count, yet decoding returns the datetime
`9999-12-31 23:59:59.123444`: the decoder's `/ 1e6` float division followed
by `utcfromtimestamp` cannot resolve microseconds at that magnitude, so the
round trip of the original claim fails for valid large datetimes. -/
theorem C4_date_microsecond_counterexample :
    to_js_date (.pydatetime 253402300799123456) =
      .jsDate (some 253402300799123456) (some dtDatetime)
        ((ratTrunc ((253402300799123456 : ℚ) / 1000) : ℚ)) ∧
    to_python ctx0 (to_js_date (.pydatetime 253402300799123456)) =
      .pydatetime 253402300799123444 ∧
    (253402300799123444 : Int) ≠ 253402300799123456 := by
  refine ⟨rfl, ?_, by omega⟩
  simp only [to_js_date, to_python, decodeDate]
  have hn1 : dtDatetime ≠ dtDate := by decide
  have hn2 : dtDatetime ≠ dtTime := by decide
  simp only [Option.getD_some, hn1, hn2, if_false]
  rw [show ((253402300799123456 : Int) : ℚ) = (253402300799123456 : ℚ) by
    norm_num]
  rw [utc_stash_lossy]

/-- C9: script values outside every decoder classification (plain buffers,
pointers) decode to the ordinary host string `'unknown'` without raising,
and the result is `==`-equal, with the same constructor, to decoding the
script string `"unknown"`. -/
theorem C9_unknown_sentinel :
    to_python ctx0 .buffer = .str unknownText ∧
    to_python ctx0 .pointer = .str unknownText ∧
    to_python ctx0 (.str (unicode_encode_cesu8 unknownText)) =
      .str unknownText ∧
    pyEq (to_python ctx0 .buffer)
      (to_python ctx0 (.str (unicode_encode_cesu8 unknownText))) = true := by
  have hdec : unicode_decode_cesu8 (unicode_encode_cesu8 unknownText) =
      unknownText := text_roundtrip unknownText (by decide)
  refine ⟨by simp [to_python], by simp [to_python], by simp [to_python, hdec],
    ?_⟩
  simp [to_python, hdec, pyEq, toNum]

/-- C6 (amended): with no decode hook installed, a script object that is
not plain (prototype neither absent nor `Object.prototype`) and is not one
of the earlier classifications (`Date`, `PythonError`, generic `Error`) is
decoded by flattening to a host mapping of its own properties; a Proxy
Object is produced only for callables. -/
theorem C6_nonplain_flattening (ctx : PyCtx)
    (hhook : ctx.toPyHook = Option.none) (n : Nat)
    (props : List (List Nat × JsValue)) (p : Nat) :
    to_python ctx (.object (.custom n) props) = .dict (toPyProps ctx props) ∧
    to_python ctx (.jsFunc p) = .proxy .func p ∧
    to_python ctx (.cfunc p) = .proxy .func p := by
  refine ⟨?_, ?_, ?_⟩ <;> simp [to_python, hookOr, hhook]

theorem C6_nonplain_flattening_witness :
    to_python ctx0 (.object (.custom 0) []) = .dict (toPyProps ctx0 []) ∧
    to_python ctx0 (.jsFunc 7) = .proxy .func 7 ∧
    to_python ctx0 (.cfunc 7) = .proxy .func 7 :=
  C6_nonplain_flattening ctx0 rfl 0 [] 7

/-- C6 counterexample: a non-callable object with a non-trivial prototype
(and no earlier classification) is NOT decoded to a Proxy Object — the
decoder's final `else` returns the flattened dict (duktape.pyx line 704). -/
theorem C6_nonplain_proxy_counterexample :
    to_python ctx0 (.object (.custom 0) []) = .dict [] ∧
    ∀ k r, to_python ctx0 (.object (.custom 0) []) ≠ .proxy k r := by
  constructor
  · simp [to_python, hookOr, ctx0, toPyProps]
  · intro k r
    simp [to_python, hookOr, ctx0, toPyProps]

/-- C7 (amended): `to_js` either pushes exactly one script value (net stack
effect +1) or raises a `TypeError`; a value with no branch raises naming
its host type and leaves the stack unchanged, but a failure nested inside a
list, tuple, or dict leaves the partially built containers behind: the
stack is extended by a junk prefix, never corrupted below. -/
theorem C7_to_js_stack_contract (ctx : PyCtx) (v : PyValue)
    (st : List JsValue) (tname : List Nat) :
    ((∃ w, to_js ctx v st = (w :: st, Option.none)) ∨
      (∃ junk e, to_js ctx v st = (junk ++ st, some e))) ∧
    (v = .unsupported tname →
      to_js ctx v st = (st, some (.typeError tname))) := by
  refine ⟨to_js_shape ctx v st, ?_⟩
  intro hv
  subst hv
  simp [to_js]

theorem C7_to_js_stack_contract_witness :
    to_js ctx0 (.unsupported [115, 101, 116]) [.null] =
      ([.null], some (.typeError [115, 101, 116])) :=
  (C7_to_js_stack_contract ctx0 (.unsupported [115, 101, 116]) [.null]
    [115, 101, 116]).2 rfl

/-- C7 counterexample: encoding the list `[set()]` (one unsupported
element) raises, but leaves the partially built array on the stack — the
stack is one slot deeper than before the failed call. -/
theorem C7_to_js_counterexample :
    to_js ctx0 (.list [.unsupported [115, 101, 116]]) [] =
      ([.array []], some (.typeError [115, 101, 116])) ∧
    ([.array []] : List JsValue) ≠ [] := by
  constructor
  · simp [to_js, to_js_seq]
  · simp

/-! ## §8 The reference table (claim C3)

`to_python_proxy` (duktape.pyx lines 295-339) interns the proxied value in
the global stash: `_ref_map[ref_id] = value` and
`_ref_count[ref_id] = duk_get_int_default(_ref_count[ref_id], 0) + 1`,
where `ref_id = hex(duk_get_heapptr(...))` — the same underlying object
always yields the same id, so the model keys both tables by the heap
pointer directly.  `finalize_proxy` (lines 322-336) decrements and, at
zero, deletes both entries. -/

def aGet {α : Type} : List (Nat × α) → Nat → Option α
  | [], _ => Option.none
  | (k2, v) :: rest, k => if k2 = k then some v else aGet rest k

def aSet {α : Type} : List (Nat × α) → Nat → α → List (Nat × α)
  | [], k, v => [(k, v)]
  | (k2, v2) :: rest, k, v =>
    if k2 = k then (k2, v) :: rest else (k2, v2) :: aSet rest k v

def aDel {α : Type} : List (Nat × α) → Nat → List (Nat × α)
  | [], _ => []
  | (k2, v2) :: rest, k => if k2 = k then rest else (k2, v2) :: aDel rest k

theorem aGet_aSet_self {α : Type} (l : List (Nat × α)) (k : Nat) (v : α) :
    aGet (aSet l k v) k = some v := by
  induction l with
  | nil => simp [aGet, aSet]
  | cons kv rest ih =>
    obtain ⟨k2, v2⟩ := kv
    by_cases h : k2 = k
    · simp [aGet, aSet, h]
    · simp [aGet, aSet, h, ih]

theorem aGet_aDel_self {α : Type} (l : List (Nat × α)) (k : Nat)
    (hnd : (l.map Prod.fst).Nodup) : aGet (aDel l k) k = Option.none := by
  induction l with
  | nil => simp [aGet, aDel]
  | cons kv rest ih =>
    obtain ⟨k2, v2⟩ := kv
    simp only [List.map_cons, List.nodup_cons] at hnd
    by_cases h : k2 = k
    · subst h
      simp only [aDel, if_pos rfl]
      -- k2 no longer occurs in rest
      clear ih
      induction rest with
      | nil => simp [aGet]
      | cons kv2 rest2 ih2 =>
        obtain ⟨k3, v3⟩ := kv2
        simp only [List.map_cons, List.mem_cons, List.nodup_cons] at hnd
        have hne : k3 ≠ k2 := fun he => hnd.1 (Or.inl he.symm)
        simp only [aGet, if_neg hne]
        exact ih2 ⟨fun hm => hnd.1 (Or.inr hm), hnd.2.2⟩
    · simp only [aDel, if_neg h, aGet, if_neg h]
      exact ih hnd.2

/-- The stash section of `to_python_proxy` (duktape.pyx lines 311-320):
store the duplicated value under its pointer-derived id and bump the count
(`duk_get_int_default(-1, 0) + 1`). -/
structure RefState where
  refMap : List (Nat × JsValue)
  refCount : List (Nat × Int)

def to_python_proxy_intern (s : RefState) (ptr : Nat) (v : JsValue) :
    RefState :=
  { refMap := aSet s.refMap ptr v,
    refCount := aSet s.refCount ptr ((aGet s.refCount ptr).getD 0 + 1) }

/-- Source `finalize_proxy` (duktape.pyx lines 322-336): `duk_require_int` on the
count (`none` models its error on a missing entry), decrement; at zero
delete both the `_ref_count` and `_ref_map` entries, otherwise store the
decremented count. -/
def finalize_proxy (s : RefState) (ptr : Nat) : Option RefState :=
  match aGet s.refCount ptr with
  | Option.none => Option.none
  | some c =>
    let c2 := c - 1
    if c2 = 0 then
      some { refMap := aDel s.refMap ptr, refCount := aDel s.refCount ptr }
    else
      some { refMap := s.refMap, refCount := aSet s.refCount ptr c2 }

/-- A well-formed stash: each table keyed at most once (JS objects cannot
hold a property name twice). -/
def RefStateWF (s : RefState) : Prop :=
  (s.refMap.map Prod.fst).Nodup ∧ (s.refCount.map Prod.fst).Nodup

theorem aSet_keys_sub {α : Type} (l : List (Nat × α)) (k : Nat) (v : α) :
    ∀ k2 ∈ (aSet l k v).map Prod.fst, k2 = k ∨ k2 ∈ l.map Prod.fst := by
  induction l with
  | nil => simp [aSet]
  | cons kv rest ih =>
    obtain ⟨k3, v3⟩ := kv
    intro k2 hk2
    by_cases h : k3 = k
    · simp only [aSet, if_pos h, List.map_cons, List.mem_cons] at hk2 ⊢
      tauto
    · simp only [aSet, if_neg h, List.map_cons, List.mem_cons] at hk2 ⊢
      rcases hk2 with h1 | h1
      · tauto
      · rcases ih k2 h1 with h2 | h2 <;> tauto

theorem aSet_nodup {α : Type} (l : List (Nat × α)) (k : Nat) (v : α)
    (h : (l.map Prod.fst).Nodup) : ((aSet l k v).map Prod.fst).Nodup := by
  induction l with
  | nil => simp [aSet]
  | cons kv rest ih =>
    obtain ⟨k3, v3⟩ := kv
    simp only [List.map_cons, List.nodup_cons] at h
    by_cases he : k3 = k
    · simp only [aSet, if_pos he, List.map_cons, List.nodup_cons]
      exact ⟨h.1, h.2⟩
    · simp only [aSet, if_neg he, List.map_cons, List.nodup_cons]
      refine ⟨?_, ih h.2⟩
      intro hmem
      rcases aSet_keys_sub rest k v k3 hmem with h1 | h1
      · exact he h1
      · exact h.1 h1

/-- C3: interning the same live object (same heap pointer, hence the same
ref id) from two separate decode operations reuses the single table entry
and raises its count to 2; finalizing one proxy leaves count 1 with both
entries present; finalizing the last proxy removes both entries. -/
theorem C3_refcount_lifecycle (s : RefState) (ptr : Nat) (v : JsValue)
    (hwf : RefStateWF s) (hfresh : aGet s.refCount ptr = Option.none) :
    aGet (to_python_proxy_intern (to_python_proxy_intern s ptr v) ptr
        v).refCount ptr = some 2 ∧
    aGet (to_python_proxy_intern (to_python_proxy_intern s ptr v) ptr
        v).refMap ptr = some v ∧
    ∃ s3, finalize_proxy (to_python_proxy_intern (to_python_proxy_intern s
        ptr v) ptr v) ptr = some s3 ∧
      aGet s3.refCount ptr = some 1 ∧ aGet s3.refMap ptr = some v ∧
      ∃ s4, finalize_proxy s3 ptr = some s4 ∧
        aGet s4.refCount ptr = Option.none ∧
        aGet s4.refMap ptr = Option.none := by
  obtain ⟨hwfM, hwfC⟩ := hwf
  set s2 := to_python_proxy_intern (to_python_proxy_intern s ptr v) ptr v
    with hs2
  have hc2 : aGet s2.refCount ptr = some 2 := by
    simp only [hs2, to_python_proxy_intern]
    rw [aGet_aSet_self, hfresh]
    simp [aGet_aSet_self]
  have hm2 : aGet s2.refMap ptr = some v := by
    simp only [hs2, to_python_proxy_intern]
    exact aGet_aSet_self _ _ _
  refine ⟨hc2, hm2, ?_⟩
  have h3 : finalize_proxy s2 ptr =
      some ⟨s2.refMap, aSet s2.refCount ptr 1⟩ := by
    rw [finalize_proxy, hc2]
    norm_num
  refine ⟨⟨s2.refMap, aSet s2.refCount ptr 1⟩, h3,
    by rw [aGet_aSet_self], hm2, ?_⟩
  have hnodupC2 : ((s2.refCount.map Prod.fst)).Nodup := by
    simp only [hs2, to_python_proxy_intern]
    exact aSet_nodup _ _ _ (aSet_nodup _ _ _ hwfC)
  have hnodupM2 : ((s2.refMap.map Prod.fst)).Nodup := by
    simp only [hs2, to_python_proxy_intern]
    exact aSet_nodup _ _ _ (aSet_nodup _ _ _ hwfM)
  have h4 : finalize_proxy ⟨s2.refMap, aSet s2.refCount ptr 1⟩ ptr =
      some ⟨aDel s2.refMap ptr, aDel (aSet s2.refCount ptr 1) ptr⟩ := by
    rw [finalize_proxy]
    simp only []
    rw [aGet_aSet_self]
    norm_num
  refine ⟨⟨aDel s2.refMap ptr, aDel (aSet s2.refCount ptr 1) ptr⟩, h4,
    ?_, ?_⟩
  · exact aGet_aDel_self _ _ (aSet_nodup _ _ _ hnodupC2)
  · exact aGet_aDel_self _ _ hnodupM2

theorem C3_refcount_lifecycle_witness :
    RefStateWF ⟨[], []⟩ ∧
    (aGet (to_python_proxy_intern (to_python_proxy_intern ⟨[], []⟩ 0
        (.object .objectProto [])) 0 (.object .objectProto [])).refCount 0 =
      some 2 ∧
    aGet (to_python_proxy_intern (to_python_proxy_intern ⟨[], []⟩ 0
        (.object .objectProto [])) 0 (.object .objectProto [])).refMap 0 =
      some (.object .objectProto []) ∧
    ∃ s3, finalize_proxy (to_python_proxy_intern (to_python_proxy_intern
        ⟨[], []⟩ 0 (.object .objectProto [])) 0 (.object .objectProto [])) 0 =
        some s3 ∧
      aGet s3.refCount 0 = some 1 ∧
      aGet s3.refMap 0 = some (.object .objectProto []) ∧
      ∃ s4, finalize_proxy s3 0 = some s4 ∧
        aGet s4.refCount 0 = Option.none ∧
        aGet s4.refMap 0 = Option.none) :=
  ⟨⟨List.nodup_nil, List.nodup_nil⟩,
   C3_refcount_lifecycle ⟨[], []⟩ 0 (.object .objectProto [])
     ⟨List.nodup_nil, List.nodup_nil⟩ rfl⟩

/-! ## §9 Array-proxy `get` (claim C8)

`ArrayProxy.get` (duktape.pyx lines 518-537) under the `push_and_pop_proxy`
decorator (lines 360-367).  The decorator pushes the live array resolved
from `_ref_map` (net +1 slot; the intermediate stash traffic of
`push_proxy_ref` is balanced) and pops once in its `finally`; the body's
`try`/`finally` pops once more after `duk_get_prop_index` pushed a value.
The index is passed to `duk_get_prop_index` as `duk_uarridx_t`, an
`unsigned int`: Cython raises `OverflowError` for a negative (or >= 2^32)
Python int *before* anything is pushed, after which both `finally` blocks
still pop. -/

inductive GetErr where
  | indexError
  | overflowError
  | stackUnderflow
deriving DecidableEq, Repr

/-- The element conversion of `ArrayProxy.get` (lines 530-533):
`to_python_proxy(pyctx, -1)` (function, array or plain object) and on its
`TypeError` fall back to `to_python`.  Heap-pointer identity of the fresh
proxy is not carried by `JsValue`; the proxy ref id is modelled as 0 —
claim C8 concerns stack depth only, and the interning traffic of
`to_python_proxy` (modelled in §8) is stack-balanced (lines 311-320). -/
def toHostElem (ctx : PyCtx) (v : JsValue) : PyValue :=
  match v with
  | .jsFunc p => .proxy .func p
  | .cfunc p => .proxy .func p
  | .array _ => .proxy .array 0
  | .object .noProto _ => .proxy .dict 0
  | .object .objectProto _ => .proxy .dict 0
  | _ => to_python ctx v

def ArrayProxy_get (ctx : PyCtx) (elems : List JsValue) (index : Int)
    (st : List JsValue) : List JsValue × Except GetErr PyValue :=
  -- push_and_pop_proxy: push the live array
  let st1 := JsValue.array elems :: st
  -- `if index < 0: index = self.length() + index` (`length()` is itself
  -- wrapped in push_and_pop_proxy and stack-neutral)
  let idx : Int := if index < 0 then (elems.length : Int) + index else index
  if idx < 0 ∨ (4294967296 : Int) ≤ idx then
    -- OverflowError at the duk_uarridx_t conversion; the body's finally
    -- pops (removing the proxy ref), the decorator's finally pops again
    match st1.tail with
    | [] => ([], .error .stackUnderflow)
    | _ :: rest => (rest, .error .overflowError)
  else
    if h : idx.toNat < elems.length then
      -- duk_get_prop_index returned 1 and pushed the element; decode it;
      -- the two finally blocks pop the element and the proxy ref
      (st, .ok (toHostElem ctx (elems.get ⟨idx.toNat, h⟩)))
    else
      -- duk_get_prop_index returned 0 (undefined pushed): IndexError;
      -- the two finally blocks pop
      (st, .error .indexError)

/-- C8 (amended): an array-proxy `get` leaves the stack depth unchanged
whenever it succeeds or raises `IndexError`; an index whose adjusted value
falls outside the `duk_uarridx_t` range instead raises `OverflowError`
after which the two unconditional pops remove one slot too many. -/
theorem C8_array_get_depth (ctx : PyCtx) (elems : List JsValue)
    (index : Int) (st st2 : List JsValue) (out : Except GetErr PyValue)
    (heq : ArrayProxy_get ctx elems index st = (st2, out))
    (hok : out = .error .indexError ∨ ∃ r, out = .ok r) :
    st2 = st := by
  unfold ArrayProxy_get at heq
  by_cases hov : (if index < 0 then (elems.length : Int) + index
      else index) < 0 ∨
      (4294967296 : Int) ≤ (if index < 0 then (elems.length : Int) + index
        else index)
  · rw [if_pos hov] at heq
    simp only [List.tail_cons] at heq
    rcases st with _ | ⟨t, rest⟩ <;>
      simp only [] at heq <;>
      (have hbad := congrArg Prod.snd heq) <;>
      simp only [] at hbad <;>
      rcases hok with h5 | ⟨r, h5⟩ <;> rw [h5] at hbad <;> simp at hbad
  · rw [if_neg hov] at heq
    by_cases hlt : (if index < 0 then (elems.length : Int) + index
        else index).toNat < elems.length
    · rw [dif_pos hlt] at heq
      exact (congrArg Prod.fst heq).symm
    · rw [dif_neg hlt] at heq
      exact (congrArg Prod.fst heq).symm

theorem C8_array_get_depth_witness :
    (ArrayProxy_get ctx0 [.null] 0 [.boolean true] =
      ([.boolean true], .ok PyValue.none) ∧
     ArrayProxy_get ctx0 [.null] 5 [.boolean true] =
      ([.boolean true], .error .indexError)) ∧
    ([.boolean true] : List JsValue) = [.boolean true] :=
  ⟨⟨by simp [ArrayProxy_get, toHostElem, to_python], by
      norm_num [ArrayProxy_get]⟩,
   C8_array_get_depth ctx0 [.null] 5 [.boolean true] [.boolean true]
     (.error .indexError) (by norm_num [ArrayProxy_get]) (Or.inl rfl)⟩

/-- C8 counterexample: on an array of length 2, `get(-5)` adjusts the index
to `-3`; the `duk_uarridx_t` conversion raises `OverflowError` and the two
unconditional pops leave the stack one slot SHALLOWER than before the
call. -/
theorem C8_array_get_counterexample :
    ArrayProxy_get ctx0 [.null, .null] (-5) [.boolean true] =
      ([], .error .overflowError) ∧
    ([] : List JsValue).length ≠ ([.boolean true] : List JsValue).length := by
  constructor
  · norm_num [ArrayProxy_get]
  · simp

/-! ## §10 Dotted global lookup and `Context.proxy` (claim C10)

`duk_get_global_dotted_string` (duktape.pyx lines 97-107) and
`Context.proxy` (lines 1282-1289).  The engine's property read
`duk_get_prop_string` returns whether the property exists (pushing
`undefined` when absent) and THROWS a `TypeError` when the base value is
`null` or `undefined`; `Context.proxy` performs no protected call, so that
throw propagates out of the binding. -/

def propGet : List (List Nat × JsValue) → List Nat → Option JsValue
  | [], _ => Option.none
  | (k2, v) :: rest, k => if k2 = k then some v else propGet rest k

/-- Source `duk_get_prop_string` on an arbitrary base value: error = engine
`TypeError` (base not object-coercible); otherwise (exists?, value).
Object-coercible non-object values (numbers, strings, ...) wrap to objects
whose properties the binding's dotted paths never hit; they read as
absent. -/
def dukGetPropStringV (target : JsValue) (k : List Nat) :
    Except Unit (Bool × JsValue) :=
  match target with
  | .undefined => .error ()
  | .null => .error ()
  | .object _ props =>
    match propGet props k with
    | some v => .ok (true, v)
    | Option.none => .ok (false, .undefined)
  | _ => .ok (false, .undefined)

/-- The loop of `duk_get_global_dotted_string` (lines 102-107): on a found
property, `duk_remove(-2)` keeps only the new value; on a missing property
`duk_pop_n(2)` restores the stack and returns `False`. -/
def dottedLoop (cur : JsValue) (parts : List (List Nat))
    (st : List JsValue) : Except Unit (Bool × List JsValue) :=
  match parts with
  | [] => .ok (true, cur :: st)
  | p :: ps =>
    match dukGetPropStringV cur p with
    | .error _ => .error ()
    | .ok (false, _) => .ok (false, st)
    | .ok (true, v) => dottedLoop v ps st

/-- Source `duk_get_global_dotted_string` (lines 97-107): the global object is the
property list `g`; a missing first segment pops the pushed `undefined` and
returns `False` (lines 99-101). -/
def duk_get_global_dotted_string (g : List (List Nat × JsValue))
    (first : List Nat) (rest : List (List Nat)) (st : List JsValue) :
    Except Unit (Bool × List JsValue) :=
  match propGet g first with
  | Option.none => .ok (false, st)
  | some v => dottedLoop v rest st

/-- Source `to_python_proxy` with `pojo_only=False` (lines 301-309): function,
array, then any object at all becomes a `JsDict`; everything else raises
`TypeError("not proxable")`. -/
def toProxyKindAny (v : JsValue) : Option ProxyKind :=
  match v with
  | .jsFunc _ => some .func
  | .cfunc _ => some .func
  | .array _ => some .array
  | .object _ _ => some .dict
  | .jsDate _ _ _ => some .dict
  | .pythonError _ _ _ _ => some .dict
  | .errObj _ _ => some .dict
  | _ => Option.none

inductive ProxyErr where
  /-- an unprotected engine `TypeError` (property access on null/undefined) -/
  | engineThrow
  /-- the `TypeError("not proxable")` of `to_python_proxy` -/
  | notProxable
deriving DecidableEq, Repr

/-- Source `Context.proxy` (duktape.pyx lines 1282-1289): on a failed lookup the
implicit `return` yields `None`; on success, `to_python_proxy(-1,
pojo_only=False)` in a `try`/`finally duk_pop`. -/
def Context_proxy (g : List (List Nat × JsValue)) (first : List Nat)
    (rest : List (List Nat)) (st : List JsValue) :
    Except ProxyErr (Option ProxyKind × List JsValue) :=
  match duk_get_global_dotted_string g first rest st with
  | .error _ => .error .engineThrow
  | .ok (false, st2) => .ok (Option.none, st2)
  | .ok (true, st2) =>
    match st2 with
    | v :: st3 =>
      match toProxyKindAny v with
      | some k => .ok (some k, st3)
      | Option.none => .error .notProxable
    | [] => .error .engineThrow  -- unreachable: the true case pushed a value

theorem dottedLoop_false (cur : JsValue) (parts : List (List Nat))
    (st st2 : List JsValue)
    (h : dottedLoop cur parts st = .ok (false, st2)) : st2 = st := by
  induction parts generalizing cur with
  | nil => simp [dottedLoop] at h
  | cons p ps ih =>
    rw [dottedLoop] at h
    rcases hd : dukGetPropStringV cur p with he | ⟨found, v⟩
    · rw [hd] at h
      simp at h
    · rw [hd] at h
      cases found
      · have h2 := (Except.ok.injEq _ _).mp h
        exact (congrArg Prod.snd h2).symm
      · exact ih v h

/-- C10 (amended): whenever the dotted lookup fails by a missing property
(`False` return) — the first segment absent from the globals, or a later
segment absent from its object-coercible parent — the helper has popped its
intermediates (stack unchanged) and `Context.proxy` returns `None` rather
than raising; when an intermediate segment's value is `null` or
`undefined`, the engine's property access throws instead. -/
theorem C10_proxy_missing_returns_none (g : List (List Nat × JsValue))
    (first : List Nat) (rest : List (List Nat)) (st st2 : List JsValue)
    (h : duk_get_global_dotted_string g first rest st = .ok (false, st2)) :
    st2 = st ∧ Context_proxy g first rest st = .ok (Option.none, st) := by
  have hst : st2 = st := by
    unfold duk_get_global_dotted_string at h
    rcases hp : propGet g first with _ | v
    · rw [hp] at h
      simp only [] at h
      exact (congrArg Prod.snd ((Except.ok.injEq _ _).mp h)).symm
    · rw [hp] at h
      exact dottedLoop_false v rest st st2 h
  subst hst
  refine ⟨rfl, ?_⟩
  unfold Context_proxy
  rw [h]

theorem C10_proxy_missing_returns_none_witness :
    duk_get_global_dotted_string [] [97] [] [] = .ok (false, []) ∧
    ([] : List JsValue) = [] ∧
    Context_proxy [] [97] [] [] = .ok (Option.none, []) :=
  ⟨rfl, (C10_proxy_missing_returns_none [] [97] [] [] [] rfl).1,
    (C10_proxy_missing_returns_none [] [97] [] [] [] rfl).2⟩

/-- C10 counterexample: with a global `a = null`, looking up `"a.b"` finds
segment `a` (`duk_get_global_string` returns 1 for an existing property)
and then performs a property read on `null`, which the engine answers with
a thrown `TypeError` — `Context.proxy` raises instead of returning
`None`. -/
theorem C10_proxy_counterexample :
    Context_proxy [([97], .null)] [97] [[98]] [] = .error .engineThrow ∧
    ∀ st2, Context_proxy [([97], .null)] [97] [[98]] [] ≠
      .ok (Option.none, st2) := by
  constructor
  · rfl
  · intro st2
    simp [Context_proxy, duk_get_global_dotted_string, propGet, dottedLoop,
      dukGetPropStringV]

/-! ## §11 Call-trampoline error path (claim C5)

`js_func_wrapper` (duktape.pyx lines 724-753) catches any exception of the
host closure (or of encoding its return value) and throws it script-side
through `duk_throw_python_error` (lines 141-151), which encodes the
exception as a `PythonError` instance (falling back to a generic error
object if encoding raises `TypeError`) and stashes a pointer to the
original host exception object under the hidden `python_error` symbol.
When the script error later reaches host code, `duk_reraise` (lines
120-139) retrieves that pointer, decodes the error value, and re-raises:
the decoded exception chained to a secondary `duktape.Error` carrying the
stack trace, whose `__cause__` is the original host exception object. -/

def getPyerr (v : JsValue) : Option PyValue :=
  match v with
  | .pythonError _ _ _ p => p
  | .errObj _ p => p
  | _ => Option.none

/-- Source `duk_put_prop_string(-2, HIDDEN("python_error"))` of the pushed pointer:
stash the original host exception on the error object about to be thrown. -/
def attachPyerr (v : JsValue) (e : PyValue) : JsValue :=
  match v with
  | .pythonError n m a _ => .pythonError n m a (some e)
  | .errObj m _ => .errObj m (some e)
  | v => v

/-- Code points of `"TypeError"`. -/
def typeErrorName : List Nat := [84, 121, 112, 101, 69, 114, 114, 111, 114]

/-- Source `duk_throw_python_error` (duktape.pyx lines 141-151): encode the host
exception (`to_js` lands in its `BaseException` branch); if that raises
`TypeError`, push a plain error object instead
(`duk_push_error_object(DUK_ERR_ERROR, str(e))`, message left opaque);
stash the pointer to the original exception; the value is then thrown.
(The finalizer installed alongside only releases the host reference at
collection time and does not affect the thrown value.) -/
def duk_throw_python_error (ctx : PyCtx) (e : PyValue) : JsValue :=
  let pushed :=
    match to_js ctx e [] with
    | (w :: _, Option.none) => w
    | _ => JsValue.errObj [] Option.none
  attachPyerr pushed e

/-- Source `js_func_wrapper` (duktape.pyx lines 724-753) restricted to what the
claim observes: decode the script arguments, call the host closure `f`,
encode its return; any host exception (from the call or from encoding the
result) becomes a script-side throw of `duk_throw_python_error`.  The
`TypeError` raised by `to_js` on an unencodable result is itself a host
exception; its single positional argument is the formatted message,
standing in here as the offending type name. -/
def js_func_wrapper (ctx : PyCtx)
    (f : List PyValue → Except PyValue PyValue) (jsArgs : List JsValue) :
    Except JsValue JsValue :=
  let args := toPyList ctx jsArgs
  match f args with
  | .ok ret =>
    match to_js ctx ret [] with
    | (w :: _, Option.none) => .ok w
    | (_, some (.typeError tname)) =>
      .error (duk_throw_python_error ctx (.exc typeErrorName [.str tname]))
    | _ => .ok .undefined  -- unreachable: to_js pushes or raises
  | .error e => .error (duk_throw_python_error ctx e)

/-- The outcome of `duk_reraise` (duktape.pyx lines 120-139). -/
inductive Raised where
  /-- Source `raise exc from duk_error`: the decoded host exception is raised; its
  cause is the secondary `duktape.Error` carrying the stack trace text,
  whose own `__cause__` is the stashed original host exception (if any) -/
  | host (exc : PyValue) (stacktrace : List Nat) (orig : Option PyValue)
  /-- Source `raise duk_error`: only the secondary `duktape.Error` is raised -/
  | dukOnly (stacktrace : List Nat) (orig : Option PyValue)

/-- Source `duk_safe_to_stacktrace`: engine primitive producing the stack-trace
text of the error value; modelled as the error's message text. -/
def safeToStacktrace (v : JsValue) : List Nat :=
  match v with
  | .errObj m _ => m
  | .pythonError _ (.str m) _ _ => unicode_decode_cesu8 m
  | _ => []

/-- Source `isinstance(exc, Exception) and not isinstance(exc, Error)` (duktape.pyx
line 135): true for reconstructed host exceptions other than
`duktape.Error` itself; `duktape.Error` instances and non-exception decode
results take the `else` branch. -/
def isExcNotDukError (v : PyValue) : Bool :=
  match v with
  | .exc name _ => name ≠ dukErrorName
  | _ => false

/-- Source `duk_reraise` (duktape.pyx lines 120-139) applied to the error value at
the stack top (the `rc != 0` case). -/
def duk_reraise (ctx : PyCtx) (errVal : JsValue) : Raised :=
  let pyerr := getPyerr errVal
  let exc := to_python ctx errVal
  let st := safeToStacktrace errVal
  if isExcNotDukError exc then .host exc st pyerr
  else .dukOnly st pyerr

/-- Encoding a host exception whose args all round-trip: `to_js` pushes one
`PythonError` instance carrying the CESU-8 name and the encoded args. -/
theorem to_js_exc_ok (ctx : PyCtx) (name : List Nat) (args : List PyValue)
    (hargs : ∀ a ∈ args, RTValue a) :
    ∃ ws, (∀ st, to_js ctx (.exc name args) st =
        (.pythonError (pushedStr name) (.str []) (.array ws) Option.none ::
          st, Option.none)) ∧
      pyEqList (toPyList ctx ws) args = true := by
  obtain ⟨ws, hrun, heq⟩ := to_js_seq_ok ctx args
    (fun a ha => rt_roundtrip ctx a (hargs a ha))
  refine ⟨ws, fun st => ?_, heq⟩
  have h := hrun [] (.str [] :: .str (pushedStr name) :: .cfunc 0 :: st)
  simp only [List.nil_append, List.length_nil] at h
  simp only [to_js, h]

/-- C5: a host closure that raises `E = ExcName(args...)` when invoked from
script has the exception thrown script-side as a `PythonError` carrying the
hidden pointer to the original `E`; when the script error propagates back
to host code, `duk_reraise` re-raises an exception of exactly the original
qualified type name with `==`-equal args — not a generic error — chained
through a secondary `duktape.Error` (carrying the script stack trace) to
the original exception object preserved by the `python_error` stash. -/
theorem C5_trampoline_exception_integrity (ctx : PyCtx) (name : List Nat)
    (args : List PyValue) (jsArgs : List JsValue) (hname : GoodText name)
    (hnd : name ≠ dukErrorName) (hargs : ∀ a ∈ args, RTValue a) :
    ∃ thrown args2,
      js_func_wrapper ctx (fun _ => .error (.exc name args)) jsArgs =
        .error thrown ∧
      getPyerr thrown = some (.exc name args) ∧
      duk_reraise ctx thrown =
        .host (.exc name args2) (safeToStacktrace thrown)
          (some (.exc name args)) ∧
      pyEqList args2 args = true := by
  obtain ⟨ws, hrun, heq⟩ := to_js_exc_ok ctx name args hargs
  have hthrow : duk_throw_python_error ctx (.exc name args) =
      .pythonError (pushedStr name) (.str []) (.array ws)
        (some (.exc name args)) := by
    unfold duk_throw_python_error
    rw [hrun []]
    rfl
  refine ⟨.pythonError (pushedStr name) (.str []) (.array ws)
    (some (.exc name args)), toPyList ctx ws, ?_, rfl, ?_, heq⟩
  · unfold js_func_wrapper
    simp only []
    rw [hthrow]
  · unfold duk_reraise
    have hdec : to_python ctx (.pythonError (pushedStr name) (.str [])
        (.array ws) (some (.exc name args))) =
        .exc name (toPyList ctx ws) := by
      simp only [to_python, toPyArgs, pushedStr_roundtrip name hname]
    rw [hdec]
    simp only [isExcNotDukError, getPyerr]
    rw [if_pos (by simp [hnd])]

theorem C5_trampoline_exception_integrity_witness :
    GoodText [86, 97, 108, 117, 101, 69, 114, 114, 111, 114] ∧
    ∃ thrown args2,
      js_func_wrapper ctx0 (fun _ => .error
        (.exc [86, 97, 108, 117, 101, 69, 114, 114, 111, 114]
          [.int 1, .str [97]])) [] = .error thrown ∧
      getPyerr thrown = some (.exc [86, 97, 108, 117, 101, 69, 114, 114,
        111, 114] [.int 1, .str [97]]) ∧
      duk_reraise ctx0 thrown =
        .host (.exc [86, 97, 108, 117, 101, 69, 114, 114, 111, 114] args2)
          (safeToStacktrace thrown)
          (some (.exc [86, 97, 108, 117, 101, 69, 114, 114, 111, 114]
            [.int 1, .str [97]])) ∧
      pyEqList args2 [.int 1, .str [97]] = true :=
  ⟨by decide,
   C5_trampoline_exception_integrity ctx0 _ [.int 1, .str [97]] []
     (by decide) (by decide) (by
       intro a ha
       simp only [List.mem_cons, List.not_mem_nil, or_false] at ha
       rcases ha with h | h <;> subst h
       · exact RTValue.int 1 (by norm_num)
       · exact RTValue.str [97] (by decide))⟩

end DuktapePy
